import Mathlib

/-!
Verification of the ClaimGuard bill-analysis core (TypeScript) against its
specification, via a shallow embedding in Lean 4.

Conventions of the embedding:

* JavaScript numbers are modelled by `CG.JRat`, an unreduced fraction
  `num : ℤ` over `den : ℕ`.  A zero denominator models a non-finite value
  (`NaN`, as produced by `parseFloat` on digit-free input); JS comparison
  operators on `NaN` are false, and arithmetic propagates it, which the
  operations below reproduce.  `CG.JRat.toRat` maps a value to the exact
  rational it denotes (non-finite values collapse to `0 : ℚ`, and the
  theorems guard with `IsFin` wherever that matters).  Floating-point
  rounding error of JS arithmetic is not modelled: all claims are about
  exact decimal arithmetic.
* `Math.round(x*100)/100` is `jround2`; its exact-rational counterpart on
  `ℚ` is `round2q` (JS `Math.round` is `⌊x + 1/2⌋`, Mathlib's `round`).
* Strings are processed as `List Char`; the specific JavaScript regular
  expressions of the source are compiled by hand into deterministic
  scanners over character lists (each one is annotated with the regex it
  implements; where the regex engine could backtrack, a comment records
  the analysis showing the deterministic scanner agrees).
* Presentation-only string fields of the source records (`description`,
  `rawLine`, `analysisNotes`, `providerName`, `feeLabel`, `period`,
  `category` of CSV rows) are omitted: no claim mentions them and they
  feed back into no numeric field.
-/

namespace CG

/-! ### JavaScript number model -/

/-- A JavaScript number: an unreduced fraction; `den = 0` encodes a
non-finite value (NaN/Infinity, written `jnan`). -/
structure JRat where
  num : Int
  den : Nat
deriving DecidableEq

/-- Build a literal: `J n d` denotes `n / d`. -/
def J (n : Int) (d : Nat) : JRat := ⟨n, d⟩

/-- An integer literal. -/
def jint (n : Int) : JRat := ⟨n, 1⟩

/-- The non-finite value (NaN). -/
def jnan : JRat := ⟨0, 0⟩

/-- A value is finite when its denominator is nonzero. -/
def JRat.IsFin (x : JRat) : Prop := x.den ≠ 0

instance (x : JRat) : Decidable x.IsFin := by unfold JRat.IsFin; infer_instance

/-- The exact rational denoted by a JS number (0 for non-finite values). -/
def JRat.toRat (x : JRat) : ℚ := (x.num : ℚ) / (x.den : ℚ)

/-- JS addition. -/
def jadd (a b : JRat) : JRat := ⟨a.num * b.den + b.num * a.den, a.den * b.den⟩

/-- JS subtraction. -/
def jsub (a b : JRat) : JRat := ⟨a.num * b.den - b.num * a.den, a.den * b.den⟩

/-- JS multiplication. -/
def jmul (a b : JRat) : JRat := ⟨a.num * b.num, a.den * b.den⟩

/-- JS division (division by zero or by a non-finite value is non-finite;
the source only ever divides by provably positive finite quantities). -/
def jdiv (a b : JRat) : JRat :=
  if b.den = 0 then jnan else ⟨a.num * b.den * b.num.sign, a.den * b.num.natAbs⟩

/-- JS `a < b` (false when either side is non-finite, as for NaN). -/
def jltB (a b : JRat) : Bool :=
  a.den != 0 && b.den != 0 && decide (a.num * b.den < b.num * a.den)

/-- JS `a <= b` (false when either side is non-finite, as for NaN). -/
def jleB (a b : JRat) : Bool :=
  a.den != 0 && b.den != 0 && decide (a.num * b.den ≤ b.num * a.den)

/-- JS `a == b` on numbers (false when either side is non-finite). -/
def jeqB (a b : JRat) : Bool :=
  a.den != 0 && b.den != 0 && decide (a.num * b.den = b.num * a.den)

/-- JS `Math.round(x * 100) / 100` (round to cents; `Math.round` is
`⌊x + 1/2⌋`, so this is `⌊(200·num + den) / (2·den)⌋ / 100`). -/
def jround2 (x : JRat) : JRat :=
  if x.den = 0 then jnan else ⟨(200 * x.num + (x.den : Int)) / (2 * (x.den : Int)), 100⟩

/-- JS `Math.round x` (to an integer). -/
def jround0 (x : JRat) : JRat :=
  if x.den = 0 then jnan else ⟨(2 * x.num + (x.den : Int)) / (2 * (x.den : Int)), 1⟩

/-- JS `Math.min` (NaN-propagating). -/
def jmin (a b : JRat) : JRat :=
  if a.den = 0 || b.den = 0 then jnan else if jleB a b then a else b

/-- JS `Math.max` (NaN-propagating). -/
def jmax (a b : JRat) : JRat :=
  if a.den = 0 || b.den = 0 then jnan else if jleB a b then b else a

/-- JS `list.reduce((s, x) => s + x, 0)`. -/
def jsum (l : List JRat) : JRat := l.foldl jadd (jint 0)

/-- Exact-rational counterpart of `Math.round(q*100)/100`. -/
def round2q (q : ℚ) : ℚ := ((round (q * 100) : ℤ) : ℚ) / 100

/-- Exact-rational counterpart of `Math.round q`. -/
def roundIq (q : ℚ) : ℚ := ((round q : ℤ) : ℚ)

/-! ### Lemma kit for the number model -/

@[simp] theorem toRat_J (n : Int) (d : Nat) : (J n d).toRat = (n : ℚ) / (d : ℚ) := rfl

@[simp] theorem toRat_jint (n : Int) : (jint n).toRat = (n : ℚ) := by
  simp [jint, JRat.toRat]

@[simp] theorem toRat_jnan : jnan.toRat = 0 := by
  simp [jnan, JRat.toRat]

theorem toRat_nonfin {x : JRat} (h : x.den = 0) : x.toRat = 0 := by
  simp [JRat.toRat, h]

@[simp] theorem isFin_jint (n : Int) : (jint n).IsFin := by
  simp [jint, JRat.IsFin]

@[simp] theorem isFin_J_iff (n : Int) (d : Nat) : (J n d).IsFin ↔ d ≠ 0 := Iff.rfl

@[simp] theorem jadd_den (a b : JRat) : (jadd a b).den = a.den * b.den := rfl

@[simp] theorem jsub_den (a b : JRat) : (jsub a b).den = a.den * b.den := rfl

@[simp] theorem jmul_den (a b : JRat) : (jmul a b).den = a.den * b.den := rfl

theorem isFin_jadd {a b : JRat} (ha : a.IsFin) (hb : b.IsFin) : (jadd a b).IsFin := by
  simpa [JRat.IsFin] using ⟨ha, hb⟩

theorem isFin_jsub {a b : JRat} (ha : a.IsFin) (hb : b.IsFin) : (jsub a b).IsFin := by
  simpa [JRat.IsFin] using ⟨ha, hb⟩

theorem isFin_jmul {a b : JRat} (ha : a.IsFin) (hb : b.IsFin) : (jmul a b).IsFin := by
  simpa [JRat.IsFin] using ⟨ha, hb⟩

theorem den_pos_of_isFin {x : JRat} (h : x.IsFin) : 0 < (x.den : ℚ) := by
  have : 0 < x.den := Nat.pos_of_ne_zero h
  exact_mod_cast this

/-- `toRat` is additive on finite values. -/
theorem toRat_jadd {a b : JRat} (ha : a.IsFin) (hb : b.IsFin) :
    (jadd a b).toRat = a.toRat + b.toRat := by
  have hda := (den_pos_of_isFin ha).ne'
  have hdb := (den_pos_of_isFin hb).ne'
  simp only [jadd, JRat.toRat]
  push_cast
  field_simp
  try ring

/-- `toRat` respects subtraction on finite values. -/
theorem toRat_jsub {a b : JRat} (ha : a.IsFin) (hb : b.IsFin) :
    (jsub a b).toRat = a.toRat - b.toRat := by
  have hda := (den_pos_of_isFin ha).ne'
  have hdb := (den_pos_of_isFin hb).ne'
  simp only [jsub, JRat.toRat]
  push_cast
  field_simp
  try ring

/-- `toRat` is multiplicative unconditionally (a non-finite factor makes
both sides zero). -/
theorem toRat_jmul (a b : JRat) : (jmul a b).toRat = a.toRat * b.toRat := by
  simp only [jmul, JRat.toRat]
  push_cast
  rw [div_mul_div_comm]

/-- `toRat` respects division by a finite positive value. -/
theorem toRat_jdiv {b : JRat} (a : JRat) (hb : b.IsFin) (hpos : 0 < b.num) :
    (jdiv a b).toRat = a.toRat / b.toRat := by
  have hdb := (den_pos_of_isFin hb).ne'
  have hsign : b.num.sign = 1 := Int.sign_eq_one_of_pos hpos
  have hnum : (0 : ℚ) < (b.num : ℚ) := by exact_mod_cast hpos
  have habs : ((b.num.natAbs : ℕ) : ℚ) = (b.num : ℚ) := by
    rw [Int.cast_natAbs]
    exact_mod_cast abs_of_pos hnum
  by_cases ha : a.den = 0
  · simp [jdiv, JRat.toRat, ha, (show b.den ≠ 0 from hb)]
  · have hda : ((a.den : ℚ)) ≠ 0 := (den_pos_of_isFin ha).ne'
    simp only [jdiv, (show b.den ≠ 0 from hb), if_false, JRat.toRat, hsign, mul_one]
    push_cast
    rw [habs]
    field_simp
    try ring

/-- Finiteness of a division by a finite value with nonzero numerator. -/
theorem isFin_jdiv {a b : JRat} (ha : a.IsFin) (hb : b.IsFin) (hn : b.num ≠ 0) :
    (jdiv a b).IsFin := by
  simp only [jdiv, (show b.den ≠ 0 from hb), if_false, JRat.IsFin]
  simpa [Nat.mul_eq_zero, Int.natAbs_eq_zero] using ⟨ha, hn⟩

/-- The numerator of a finite value is positive iff its rational is. -/
theorem toRat_pos_iff {x : JRat} (hx : x.IsFin) : 0 < x.toRat ↔ 0 < x.num := by
  have hd := den_pos_of_isFin hx
  rw [JRat.toRat, div_pos_iff]
  constructor
  · rintro (⟨h, _⟩ | ⟨_, h⟩)
    · exact_mod_cast h
    · exact absurd hd (not_lt.mpr h.le)
  · intro h
    exact Or.inl ⟨by exact_mod_cast h, hd⟩

/-- JS `<` agrees with the rational order on finite values. -/
theorem jltB_iff {a b : JRat} (ha : a.IsFin) (hb : b.IsFin) :
    jltB a b = true ↔ a.toRat < b.toRat := by
  have hda := den_pos_of_isFin ha
  have hdb := den_pos_of_isFin hb
  simp only [jltB, Bool.and_eq_true, bne_iff_ne, ne_eq, decide_eq_true_eq,
    JRat.toRat, div_lt_div_iff₀ hda hdb]
  constructor
  · rintro ⟨_, h⟩
    exact_mod_cast h
  · intro h
    exact ⟨⟨ha, hb⟩, by exact_mod_cast h⟩

/-- JS `<=` agrees with the rational order on finite values. -/
theorem jleB_iff {a b : JRat} (ha : a.IsFin) (hb : b.IsFin) :
    jleB a b = true ↔ a.toRat ≤ b.toRat := by
  have hda := den_pos_of_isFin ha
  have hdb := den_pos_of_isFin hb
  simp only [jleB, Bool.and_eq_true, bne_iff_ne, ne_eq, decide_eq_true_eq,
    JRat.toRat, div_le_div_iff₀ hda hdb]
  constructor
  · rintro ⟨_, h⟩
    exact_mod_cast h
  · intro h
    exact ⟨⟨ha, hb⟩, by exact_mod_cast h⟩

/-- JS `==` agrees with rational equality on finite values. -/
theorem jeqB_iff {a b : JRat} (ha : a.IsFin) (hb : b.IsFin) :
    jeqB a b = true ↔ a.toRat = b.toRat := by
  have hda := den_pos_of_isFin ha
  have hdb := den_pos_of_isFin hb
  simp only [jeqB, Bool.and_eq_true, bne_iff_ne, ne_eq, decide_eq_true_eq,
    JRat.toRat, div_eq_div_iff hda.ne' hdb.ne']
  constructor
  · rintro ⟨_, h⟩
    exact_mod_cast h
  · intro h
    exact ⟨⟨ha, hb⟩, by exact_mod_cast h⟩

/-- A false JS `<` on finite values means the rational order fails. -/
theorem jltB_false_iff {a b : JRat} (ha : a.IsFin) (hb : b.IsFin) :
    jltB a b = false ↔ ¬ a.toRat < b.toRat := by
  rw [← jltB_iff ha hb, Bool.not_eq_true]

@[simp] theorem jltB_nonfin_left {a b : JRat} (h : a.den = 0) : jltB a b = false := by
  simp [jltB, h]

@[simp] theorem jltB_nonfin_right {a b : JRat} (h : b.den = 0) : jltB a b = false := by
  simp [jltB, h]

/-- `jround2` realises the exact rounding `round2q` on the denoted rationals
(unconditionally: a non-finite input denotes `0`, which is a fixed point). -/
theorem toRat_jround2 (x : JRat) : (jround2 x).toRat = round2q x.toRat := by
  by_cases hx : x.den = 0
  · simp [jround2, hx, toRat_nonfin, round2q]
  · have hd : (0 : ℚ) < (x.den : ℚ) := den_pos_of_isFin hx
    simp only [jround2, hx, if_false, JRat.toRat, round2q, round_eq]
    congr 1
    have harg : (x.num : ℚ) / (x.den : ℚ) * 100 + 1 / 2
        = ((200 * x.num + (x.den : Int) : ℤ) : ℚ) / ((2 * x.den : ℕ) : ℚ) := by
      push_cast
      field_simp
      ring
    rw [harg, Rat.floor_intCast_div_natCast]
    norm_cast

/-- `jround0` realises the exact integer rounding `roundIq`. -/
theorem toRat_jround0 (x : JRat) : (jround0 x).toRat = roundIq x.toRat := by
  by_cases hx : x.den = 0
  · simp [jround0, hx, toRat_nonfin, roundIq]
  · have hd : (0 : ℚ) < (x.den : ℚ) := den_pos_of_isFin hx
    simp only [jround0, hx, if_false, JRat.toRat, roundIq, round_eq]
    rw [Nat.cast_one, div_one]
    have harg : (x.num : ℚ) / (x.den : ℚ) + 1 / 2
        = ((2 * x.num + (x.den : Int) : ℤ) : ℚ) / ((2 * x.den : ℕ) : ℚ) := by
      push_cast
      field_simp
      ring
    rw [harg, Rat.floor_intCast_div_natCast]
    norm_cast

/-- `jround2` of a finite value is finite (denominator 100). -/
theorem isFin_jround2 {x : JRat} (hx : x.IsFin) : (jround2 x).IsFin := by
  simp [jround2, (show x.den ≠ 0 from hx), JRat.IsFin]

/-- `jmin` on finite values agrees with the rational `min`. -/
theorem toRat_jmin {a b : JRat} (ha : a.IsFin) (hb : b.IsFin) :
    (jmin a b).toRat = min a.toRat b.toRat := by
  simp only [jmin, (show a.den ≠ 0 from ha), (show b.den ≠ 0 from hb),
    Bool.false_or, if_false]
  rcases hle : jleB a b with hF | hT
  · have := (not_iff_not.mpr (jleB_iff ha hb)).mp (by simp [hle])
    simp [hle, min_eq_right (le_of_not_le this)]
  · have := (jleB_iff ha hb).mp hle
    simp [hle, min_eq_left this]

/-- `jmax` on finite values agrees with the rational `max`. -/
theorem toRat_jmax {a b : JRat} (ha : a.IsFin) (hb : b.IsFin) :
    (jmax a b).toRat = max a.toRat b.toRat := by
  simp only [jmax, (show a.den ≠ 0 from ha), (show b.den ≠ 0 from hb),
    Bool.false_or, if_false]
  rcases hle : jleB a b with hF | hT
  · have := (not_iff_not.mpr (jleB_iff ha hb)).mp (by simp [hle])
    simp [hle, max_eq_left (le_of_not_le this)]
  · have := (jleB_iff ha hb).mp hle
    simp [hle, max_eq_right this]

/-! ### Character and line utilities

The source splits texts with `billText.split("\n")` and matches lines
against JavaScript regular expressions.  We work on `List Char`. -/

/-- ASCII digit test (`[0-9]` / `\d`). -/
def isDigitC (c : Char) : Bool := c.isDigit

/-- JS word character (`\w` = `[A-Za-z0-9_]`; inputs are ASCII). -/
def isWordC (c : Char) : Bool := c.isAlpha || c.isDigit || c == '_'

/-- JS whitespace (`\s`); the ASCII part suffices for the inputs. -/
def isWsC (c : Char) : Bool :=
  c == ' ' || c == '\t' || c == '\n' || c == '\r' || c == '\x0b' || c == '\x0c'

/-- ASCII uppercase letter (`[A-Z]`). -/
def isUpperC (c : Char) : Bool := 'A' ≤ c && c ≤ 'Z'

/-- ASCII lower-casing of a line, modelling `String.toLowerCase` for the
case-insensitive (`/i`) regex tests. -/
def lowerL (s : List Char) : List Char := s.map Char.toLower

/-- ASCII upper-casing of one character. -/
def upperC (c : Char) : Char :=
  if 'a' ≤ c && c ≤ 'z' then Char.ofNat (c.toNat - 32) else c

/-- ASCII upper-casing, modelling `String.toUpperCase` (all inputs are
ASCII fee keys). -/
def upperS (s : String) : String := String.mk (s.data.map upperC)

/-- `text.split("\n")` on character lists. -/
def splitOnC (sep : Char) : List Char → List (List Char)
  | [] => [[]]
  | c :: cs =>
    match splitOnC sep cs with
    | [] => [[c]]
    | r :: rs => if c = sep then [] :: r :: rs else (c :: r) :: rs

/-- The lines of a text, as character lists. -/
def linesOf (s : String) : List (List Char) := splitOnC '\n' s.data

/-- If `p` is a prefix of `s`, return the remainder. -/
def stripPref : List Char → List Char → Option (List Char)
  | [], s => some s
  | _ :: _, [] => none
  | p :: ps, c :: cs => if c = p then stripPref ps cs else none

/-- Numeric value of a digit run (`parseInt` on a digit string). -/
def digitsVal (ds : List Char) : Nat := ds.foldl (fun n c => n * 10 + (c.toNat - 48)) 0

/-- Split at the longest prefix satisfying `p`. -/
def takeDropWhile (p : Char → Bool) (s : List Char) : List Char × List Char :=
  (s.takeWhile p, s.dropWhile p)

/-! ### A tiny pattern language for the Boolean regex tests

Each `/.../i.test(line)` of the source is an alternation of simple
sequences of literals, `\s+`, `.?` and a trailing-`\b` check; `occursSeq`
tests whether any alternative matches at any position (the Boolean result
does not depend on the leftmost-match rule).  `\s+` is matched by maximal
munch, which is faithful because in every pattern below it is followed by
a letter literal (never by something a whitespace character could match),
and `.?` tries both lengths. -/

inductive Tok where
  | lit : List Char → Tok
  | ws1 : Tok
  | anyOpt : Tok
  | eow : Tok
  | cwsStar : Tok

/-- Literal pattern token from a string. -/
def L (s : String) : Tok := Tok.lit s.data

/-- Match a token sequence at the head of the input. -/
def seqHere : List Tok → List Char → Bool
  | [], _ => true
  | Tok.lit p :: ts, s =>
    match stripPref p s with
    | some r => seqHere ts r
    | none => false
  | Tok.ws1 :: ts, s =>
    match s with
    | [] => false
    | c :: cs => isWsC c && seqHere ts (cs.dropWhile isWsC)
  | Tok.anyOpt :: ts, s =>
    (match s with
     | c :: cs => c != '\n' && seqHere ts cs
     | [] => false) || seqHere ts s
  | Tok.eow :: ts, s =>
    (match s with
     | c :: _ => !isWordC c
     | [] => true) && seqHere ts s
  | Tok.cwsStar :: ts, s => seqHere ts (s.dropWhile fun c => c == ':' || isWsC c)

/-- Does any alternative match at any position? -/
def occursSeq (alts : List (List Tok)) : List Char → Bool
  | [] => alts.any fun a => seqHere a []
  | c :: cs => (alts.any fun a => seqHere a (c :: cs)) || occursSeq alts cs

/-- Case-insensitive test: lower the line, then look for an alternative
(patterns are written pre-lowercased). -/
def testCI (alts : List (List Tok)) (line : List Char) : Bool :=
  occursSeq alts (lowerL line)

/-! ### Global scans (models of `regex.exec` loops / `String.match` with `g`)

`scanPos` runs a prefix matcher at every position, left to right; on a
match of `k + 1` characters it emits the value and continues right after
the match, exactly like `exec` advancing `lastIndex`. -/

def scanPosF {α : Type} (f : List Char → Option (α × Nat)) : Nat → List Char → List α
  | 0, _ => []
  | _ + 1, [] => []
  | fuel + 1, c :: cs =>
    match f (c :: cs) with
    | some (v, k) => v :: scanPosF f fuel (List.drop k cs)
    | none => scanPosF f fuel cs

/-- Run the scan with enough fuel (each step consumes at least one
character, so `s.length` steps always suffice; the fuel only makes the
recursion structural). -/
def scanPos {α : Type} (f : List Char → Option (α × Nat)) (s : List Char) : List α :=
  scanPosF f s.length s

/-! ### Number tokens

`medGroups` and `medFrac` implement the tail of the medical amount regex
`/\$?\s*([0-9]{1,3}(?:,?[0-9]{3})*(?:\.[0-9]{2})?)/g`.  Nothing follows
the two optional parts, so the greedy first parse always succeeds and the
engine never backtracks; the scanners below are therefore deterministic.
The `\$?\s*` prefix is not represented: a match starting at `$` or at
whitespace captures the same digit group and ends at the same place as
the match starting at the first digit, so scanning from digit positions
yields the same values and the same continuation points. -/

/-- Up to `k` leading digits. -/
def takeDigitsUpTo : Nat → List Char → List Char × List Char
  | 0, s => ([], s)
  | _ + 1, [] => ([], [])
  | k + 1, c :: cs =>
    if isDigitC c then
      let (d, r) := takeDigitsUpTo k cs
      (c :: d, r)
    else ([], c :: cs)

/-- Greedy `(?:,?[0-9]{3})*`: groups of exactly three digits, each with an
optional leading comma; returns the collected digits and the rest. -/
def medGroups : List Char → List Char × List Char
  | ',' :: a :: b :: c :: r =>
    if isDigitC a && isDigitC b && isDigitC c then
      let (d, rest) := medGroups r
      (a :: b :: c :: d, rest)
    else ([], ',' :: a :: b :: c :: r)
  | a :: b :: c :: r =>
    if isDigitC a && isDigitC b && isDigitC c then
      let (d, rest) := medGroups r
      (a :: b :: c :: d, rest)
    else ([], a :: b :: c :: r)
  | s => ([], s)

/-- Optional `(?:\.[0-9]{2})?`: a dot followed by exactly two digits. -/
def medFrac : List Char → Option (Char × Char) × List Char
  | '.' :: a :: b :: r =>
    if isDigitC a && isDigitC b then (some (a, b), r)
    else (none, '.' :: a :: b :: r)
  | s => (none, s)

/-- One medical amount token at the current position (position must hold a
digit); yields `parseFloat(group.replace(/,/g, ""))` and the advance. -/
def medAmountTok (s : List Char) : Option (JRat × Nat) :=
  match s with
  | [] => none
  | c :: _ =>
    if isDigitC c then
      let (d1, r1) := takeDigitsUpTo 3 s
      let (dg, r2) := medGroups r1
      let (fr, r3) := medFrac r2
      let whole := digitsVal (d1 ++ dg)
      let v : JRat :=
        match fr with
        | none => ⟨whole, 1⟩
        | some (a, b) => ⟨whole * 100 + digitsVal [a, b], 100⟩
      some (v, s.length - r3.length - 1)
    else none

/-- All medical amounts on a line (the `exec` loop of `extractCharges`). -/
def medAmountsOf (line : List Char) : List JRat := scanPos medAmountTok line

/-- Value of a `[\d,]+\.?\d*` token body (after `.replace(/[$,]/g, "")`):
`parseFloat` of the remaining digits, NaN when no digit is left. -/
def stripTokVal (intDigits fracDigits : List Char) : JRat :=
  if intDigits.isEmpty && fracDigits.isEmpty then jnan
  else
    ⟨digitsVal intDigits * 10 ^ fracDigits.length + digitsVal fracDigits,
      10 ^ fracDigits.length⟩

/-- One `[\d,]+\.?\d*` token at the current position (the position must
hold a digit or comma); greedy and deterministic (nothing follows the
optional parts). -/
def utilAmountTok (s : List Char) : Option (JRat × Nat) :=
  match s with
  | [] => none
  | c :: _ =>
    if isDigitC c || c == ',' then
      let (tok, r1) := takeDropWhile (fun c => isDigitC c || c == ',') s
      let (fds, r2) :=
        match r1 with
        | '.' :: r => takeDropWhile isDigitC r
        | _ => ([], r1)
      some (stripTokVal (tok.filter isDigitC) fds, s.length - r2.length - 1)
    else none

/-- All `[\d,]+\.?\d*` matches on a line (`line.match(/[\d,]+\.?\d*\/g)`). -/
def utilAmountsOf (line : List Char) : List JRat := scanPos utilAmountTok line

/-- First `/\$[\d,]+\.?\d*/` match on a line, as the parsed value
(`parseFloat(m[0].replace(/[$,]/g, ""))`); `none` when there is no match. -/
def findDollar : List Char → Option JRat
  | [] => none
  | '$' :: c :: cs =>
    if isDigitC c || c == ',' then
      match utilAmountTok (c :: cs) with
      | some (v, _) => some v
      | none => none
    else findDollar (c :: cs)
  | _ :: cs => findDollar cs

/-- One `/\$[\d,]+\.?\d*/g` match at the current position, for global
dollar-amount scans. -/
def dollarTok (s : List Char) : Option (JRat × Nat) :=
  match s with
  | '$' :: c :: cs =>
    if isDigitC c || c == ',' then
      match utilAmountTok (c :: cs) with
      | some (v, k) => some (v, k + 1)
      | none => none
    else none
  | _ => none

/-- All `/\$[\d,]+\.?\d*/g` matches on a line, parsed. -/
def dollarAmountsOf (line : List Char) : List JRat := scanPos dollarTok line

/-! ### Extra rounding lemmas -/

@[simp] theorem round2q_zero : round2q 0 = 0 := by
  simp [round2q]

/-- `round2q` is the identity on exact multiples of a cent. -/
theorem round2q_div100 (n : ℤ) : round2q ((n : ℚ) / 100) = (n : ℚ) / 100 := by
  rw [round2q, div_mul_cancel₀ _ (by norm_num : (100 : ℚ) ≠ 0), round_intCast]

/-- Subtracting a multiple of a cent commutes with `round2q`. -/
theorem round2q_sub_div100 (x : ℚ) (n : ℤ) :
    round2q (x - (n : ℚ) / 100) = round2q x - (n : ℚ) / 100 := by
  rw [round2q, round2q, sub_mul, div_mul_cancel₀ _ (by norm_num : (100 : ℚ) ≠ 0),
    round_sub_int]
  push_cast
  ring

/-! ### Fee calculator (`src/lib/services/fee-calc.ts`)

The numeric constants and the branch structure are transcribed from
`calculateSuccessFee` / `calculateSmartFee`.  The presentation string
`feeLabel` is omitted; `feeType` is kept as a string. -/

def SUCCESS_FEE_RATE : JRat := J 20 100

def QUICK_WIN_THRESHOLD : JRat := jint 50

def QUICK_WIN_FEE : JRat := jint 10

structure FeeCalculation where
  grossSavings : JRat
  feeRate : JRat
  fee : JRat
  netSavings : JRat
deriving DecidableEq

structure SmartFeeCalculation where
  grossSavings : JRat
  feeRate : JRat
  fee : JRat
  netSavings : JRat
  feeType : String
deriving DecidableEq

/-- `calculateSuccessFee` of the source. -/
def calculateSuccessFee (grossSavings : JRat) : FeeCalculation :=
  if jleB grossSavings (jint 0) then
    ⟨jint 0, SUCCESS_FEE_RATE, jint 0, jint 0⟩
  else
    let fee := jround2 (jmul grossSavings SUCCESS_FEE_RATE)
    let netSavings := jround2 (jsub grossSavings fee)
    ⟨jround2 grossSavings, SUCCESS_FEE_RATE, fee, netSavings⟩

/-- `calculateSmartFee` of the source. -/
def calculateSmartFee (grossSavings : JRat) : SmartFeeCalculation :=
  if jleB grossSavings (jint 0) then
    ⟨jint 0, jint 0, jint 0, jint 0, "quick_win"⟩
  else if jleB grossSavings QUICK_WIN_THRESHOLD then
    ⟨jround2 grossSavings, jround2 (jdiv QUICK_WIN_FEE grossSavings),
      QUICK_WIN_FEE, jround2 (jsub grossSavings QUICK_WIN_FEE), "quick_win"⟩
  else
    let baseFee := calculateSuccessFee grossSavings
    ⟨baseFee.grossSavings, baseFee.feeRate, baseFee.fee, baseFee.netSavings, "success_fee"⟩

/-- Rounding to cents is idempotent, also after subtracting cents. -/
theorem round2q_idem_sub (x : ℚ) (k : ℤ) :
    round2q (round2q x - (k : ℚ) / 100) = round2q x - (k : ℚ) / 100 := by
  have h : round2q x - (k : ℚ) / 100 = ((round (x * 100) - k : ℤ) : ℚ) / 100 := by
    rw [round2q]; push_cast; ring
  rw [h, round2q_div100, ← h]

/-- C1.  `calculateSmartFee` is a pure function of `grossSavings`
implementing the two-tier rule: for `grossSavings ≤ 0` it returns fee `0`
and type `quick_win`; for `0 < grossSavings ≤ 50` (boundary included) the
flat fee `10` with type `quick_win`; for `grossSavings > 50` the fee
`round(grossSavings · 0.20, 2)` with type `success_fee`; and in every case
`netSavings = grossSavings - fee` (on the returned record's own fields,
rounded to 2 decimals). -/
theorem C1_calculateSmartFee (g : JRat) (hg : g.IsFin) :
    (g.toRat ≤ 0 →
      (calculateSmartFee g).fee.toRat = 0 ∧ (calculateSmartFee g).feeType = "quick_win")
    ∧ (0 < g.toRat → g.toRat ≤ 50 →
      (calculateSmartFee g).fee.toRat = 10 ∧ (calculateSmartFee g).feeType = "quick_win")
    ∧ (50 < g.toRat →
      (calculateSmartFee g).fee.toRat = round2q (g.toRat * (20 / 100))
        ∧ (calculateSmartFee g).feeType = "success_fee")
    ∧ (calculateSmartFee g).netSavings.toRat
        = round2q ((calculateSmartFee g).grossSavings.toRat - (calculateSmartFee g).fee.toRat) := by
  have h50fin : (QUICK_WIN_THRESHOLD).IsFin := by decide
  have h0fin : (jint 0).IsFin := isFin_jint 0
  by_cases hle0 : g.toRat ≤ 0
  · have hb : jleB g (jint 0) = true := (jleB_iff hg h0fin).mpr (by simpa using hle0)
    refine ⟨fun _ => ⟨by simp [calculateSmartFee, hb], by simp [calculateSmartFee, hb]⟩,
      fun hpos => absurd hpos (not_lt.mpr hle0),
      fun hlt => absurd (lt_trans (by norm_num) hlt) (not_lt.mpr hle0), ?_⟩
    simp [calculateSmartFee, hb]
  · have hb : jleB g (jint 0) = false := by
      rcases h : jleB g (jint 0)
      · rfl
      · exact absurd (by simpa using (jleB_iff hg h0fin).mp h) hle0
    have hpos : 0 < g.toRat := lt_of_not_le hle0
    by_cases hle50 : g.toRat ≤ 50
    · have hb50 : jleB g QUICK_WIN_THRESHOLD = true :=
        (jleB_iff hg h50fin).mpr (by simpa [QUICK_WIN_THRESHOLD] using hle50)
      have hgoal : calculateSmartFee g =
          ⟨jround2 g, jround2 (jdiv QUICK_WIN_FEE g), QUICK_WIN_FEE,
            jround2 (jsub g QUICK_WIN_FEE), "quick_win"⟩ := by
        simp [calculateSmartFee, hb, hb50]
      rw [hgoal]
      refine ⟨fun h => absurd hpos (not_lt.mpr h),
        fun _ _ => ⟨by simp [QUICK_WIN_FEE], rfl⟩,
        fun hlt => absurd hlt (not_lt.mpr hle50), ?_⟩
      have hfee : (QUICK_WIN_FEE).toRat = ((1000 : ℤ) : ℚ) / 100 := by
        simp [QUICK_WIN_FEE]
        norm_num
      calc (jround2 (jsub g QUICK_WIN_FEE)).toRat
          = round2q (g.toRat - ((1000 : ℤ) : ℚ) / 100) := by
            rw [toRat_jround2, toRat_jsub hg (by decide), hfee]
        _ = round2q g.toRat - ((1000 : ℤ) : ℚ) / 100 := round2q_sub_div100 _ _
        _ = round2q (round2q g.toRat - ((1000 : ℤ) : ℚ) / 100) := (round2q_idem_sub _ _).symm
        _ = round2q ((jround2 g).toRat - (QUICK_WIN_FEE).toRat) := by
            rw [toRat_jround2, hfee]
    · have hb50 : jleB g QUICK_WIN_THRESHOLD = false := by
        rcases h : jleB g QUICK_WIN_THRESHOLD
        · rfl
        · exact absurd (by simpa [QUICK_WIN_THRESHOLD] using (jleB_iff hg h50fin).mp h) hle50
      have hgt : 50 < g.toRat := lt_of_not_le hle50
      have hgoal : calculateSmartFee g =
          ⟨jround2 g, SUCCESS_FEE_RATE, jround2 (jmul g SUCCESS_FEE_RATE),
            jround2 (jsub g (jround2 (jmul g SUCCESS_FEE_RATE))), "success_fee"⟩ := by
        simp [calculateSmartFee, calculateSuccessFee, hb, hb50]
      rw [hgoal]
      have hrate : (SUCCESS_FEE_RATE).toRat = 20 / 100 := by
        simp [SUCCESS_FEE_RATE]
        try norm_num
      have hfee : (jround2 (jmul g SUCCESS_FEE_RATE)).toRat = round2q (g.toRat * (20 / 100)) := by
        rw [toRat_jround2, toRat_jmul, hrate]
      refine ⟨fun h => absurd hpos (not_lt.mpr h),
        fun _ h => absurd hgt (not_lt.mpr h), fun _ => ⟨hfee, rfl⟩, ?_⟩
      have hfeefin : (jround2 (jmul g SUCCESS_FEE_RATE)).IsFin :=
        isFin_jround2 (isFin_jmul hg (by decide))
      have hfee100 : (jround2 (jmul g SUCCESS_FEE_RATE)).toRat
          = ((round (((jmul g SUCCESS_FEE_RATE).toRat) * 100) : ℤ) : ℚ) / 100 := by
        rw [toRat_jround2, round2q]
      calc (jround2 (jsub g (jround2 (jmul g SUCCESS_FEE_RATE)))).toRat
          = round2q (g.toRat
              - ((round (((jmul g SUCCESS_FEE_RATE).toRat) * 100) : ℤ) : ℚ) / 100) := by
            rw [toRat_jround2, toRat_jsub hg hfeefin, hfee100]
        _ = round2q g.toRat
              - ((round (((jmul g SUCCESS_FEE_RATE).toRat) * 100) : ℤ) : ℚ) / 100 :=
            round2q_sub_div100 _ _
        _ = round2q (round2q g.toRat
              - ((round (((jmul g SUCCESS_FEE_RATE).toRat) * 100) : ℤ) : ℚ) / 100) :=
            (round2q_idem_sub _ _).symm
        _ = round2q ((jround2 g).toRat - (jround2 (jmul g SUCCESS_FEE_RATE)).toRat) := by
            rw [toRat_jround2, hfee100]

/-- C1 witness: `calculateSmartFee 50` has fee 10 and type `quick_win`
(boundary inclusive), and `calculateSmartFee 50.01` has type `success_fee`
with fee exactly `10.00`. -/
theorem C1_calculateSmartFee_witness :
    (calculateSmartFee (jint 50)).fee.toRat = 10
      ∧ (calculateSmartFee (jint 50)).feeType = "quick_win"
      ∧ (calculateSmartFee (J 5001 100)).feeType = "success_fee"
      ∧ (calculateSmartFee (J 5001 100)).fee.toRat = 10 := by
  have h1 := (C1_calculateSmartFee (jint 50) (by decide)).2.1
    (by norm_num) (by norm_num)
  have h2 := (C1_calculateSmartFee (J 5001 100) (by decide)).2.2.1
    (by rw [toRat_J]; norm_num)
  refine ⟨h1.1, h1.2, h2.2, ?_⟩
  rw [h2.1, toRat_J]
  rw [round2q, round_eq]
  norm_num

/-! ### Medical analyzer (`src/lib/services/analysis-engine.ts`) -/

/-- The static fair-price reference table (`FAIR_PRICE_DB`); the
`description` strings are omitted, prices are in cents over 100. -/
def FAIR_PRICE_DB : List (String × JRat) := [
  ("99213", J 11000 100), ("99214", J 16500 100), ("99215", J 23500 100),
  ("99283", J 29000 100), ("99284", J 48000 100), ("99285", J 71000 100),
  ("99291", J 47500 100), ("36415", J 1200 100), ("85025", J 1100 100),
  ("85027", J 850 100), ("80053", J 1400 100), ("80048", J 1100 100),
  ("80061", J 1800 100), ("81001", J 450 100), ("71046", J 4500 100),
  ("71260", J 34000 100), ("74177", J 38000 100), ("70553", J 52000 100),
  ("73721", J 46000 100), ("93000", J 2800 100), ("93306", J 19500 100),
  ("43239", J 31000 100), ("45380", J 42500 100), ("27447", J 180000 100),
  ("27130", J 195000 100), ("29881", J 78000 100), ("59400", J 285000 100),
  ("59510", J 320000 100), ("10060", J 19500 100), ("11042", J 14500 100),
  ("90834", J 10500 100), ("90837", J 14500 100), ("90847", J 12500 100),
  ("96372", J 2500 100), ("J0585", J 45000 100), ("96413", J 28000 100),
  ("77386", J 36000 100), ("88305", J 7500 100), ("97110", J 4200 100),
  ("97140", J 4200 100), ("97530", J 4500 100), ("J7321", J 28000 100),
  ("20610", J 11000 100), ("64483", J 38000 100), ("62323", J 35000 100)]

/-- `FAIR_PRICE_DB[code]` (object key lookup; keys are unique). -/
def fairLookup (code : String) : Option JRat :=
  (FAIR_PRICE_DB.find? (fun e => e.1 == code)).map (·.2)

/-- An extracted charge (`rawLine` omitted). -/
structure ExtractedCharge where
  code : String
  billedAmount : JRat
deriving DecidableEq

/-- Exactly five leading digits (`[0-9]{5}`). -/
def fiveDigits : List Char → Option (List Char × List Char)
  | a :: b :: c :: d :: e :: r =>
    if isDigitC a && isDigitC b && isDigitC c && isDigitC d && isDigitC e then
      some ([a, b, c, d, e], r)
    else none
  | _ => none

/-- A leading uppercase letter and four digits (`[A-Z][0-9]{4}`; the code
pattern has no `i` flag, so this is case sensitive). -/
def letterFour : List Char → Option (List Char × List Char)
  | a :: b :: c :: d :: e :: r =>
    if isUpperC a && isDigitC b && isDigitC c && isDigitC d && isDigitC e then
      some ([a, b, c, d, e], r)
    else none
  | _ => none

/-- A `\b` holds after the match: end of line or a non-word character. -/
def boundaryAfter : List Char → Bool
  | [] => true
  | c :: _ => !isWordC c

/-- First match of `/\b([0-9]{5}|[A-Z][0-9]{4})\b/` on a line.  The
leading `\b` demands a non-word character (or the line start) before the
match; at one position the five-digit alternative is tried before the
letter alternative, and on failure the scan advances one character, as
the JS engine does. -/
def findCodeAux (prevWord : Bool) : List Char → Option String
  | [] => none
  | c :: cs =>
    let attempt : Option String :=
      if prevWord then none
      else
        match fiveDigits (c :: cs) with
        | some (code, rest) =>
          if boundaryAfter rest then some (String.mk code)
          else match letterFour (c :: cs) with
            | some (code2, rest2) =>
              if boundaryAfter rest2 then some (String.mk code2) else none
            | none => none
        | none =>
          match letterFour (c :: cs) with
          | some (code2, rest2) =>
            if boundaryAfter rest2 then some (String.mk code2) else none
          | none => none
    match attempt with
    | some s => some s
    | none => findCodeAux (isWordC c) cs

/-- The charge extracted from one line of `extractCharges`: a code match,
then the largest amount on the line that is below 1,000,000 (the running
`maxAmount` loop), kept only when positive. -/
def chargeOfLine (line : List Char) : Option ExtractedCharge :=
  match findCodeAux false line with
  | none => none
  | some code =>
    let maxAmount := (medAmountsOf line).foldl
      (fun m a => if jltB m a && jltB a (jint 1000000) then a else m) (jint 0)
    if jltB (jint 0) maxAmount then some ⟨code, maxAmount⟩ else none

/-- `extractCharges` of the source (the per-line loop). -/
def extractCharges (billText : String) : List ExtractedCharge :=
  (linesOf billText).filterMap chargeOfLine

/-- A flagged item; shared by all four analyzers (`description` omitted). -/
structure FlaggedItem where
  code : String
  billedAmount : JRat
  fairPrice : JRat
  savings : JRat
  confidence : JRat
deriving DecidableEq

def OVERCHARGE_THRESHOLD : JRat := J 13 10

/-- The item `detectOvercharges` emits for one charge, if any. -/
def flagCharge (charge : ExtractedCharge) : Option FlaggedItem :=
  match fairLookup charge.code with
  | none => none
  | some fairPrice =>
    if jltB (jmul fairPrice OVERCHARGE_THRESHOLD) charge.billedAmount then
      let savings := jsub charge.billedAmount fairPrice
      let overRat := jdiv charge.billedAmount fairPrice
      let confidence :=
        jround2 (jmin (jint 95) (jadd (jint 50) (jmul (jsub overRat (jint 1)) (jint 30))))
      some ⟨charge.code, charge.billedAmount, fairPrice, jround2 savings, confidence⟩
    else none

/-- `overcharges.sort((a, b) => b.savings - a.savings)`: a stable sort
putting larger savings first (merge sort models the stable JS sort). -/
def sortBySavingsDesc (l : List FlaggedItem) : List FlaggedItem :=
  l.mergeSort (fun a b => jleB b.savings a.savings)

/-- `detectOvercharges` of the source (the accumulating loop is a
`filterMap`, then the sort). -/
def detectOvercharges (charges : List ExtractedCharge) : List FlaggedItem :=
  sortBySavingsDesc (charges.filterMap flagCharge)

/-- The medical analyzer's native result shape (`providerName` and
`analysisNotes` omitted). -/
structure AnalysisResult where
  lineItems : List FlaggedItem
  totalBilled : JRat
  totalFairPrice : JRat
  potentialSavings : JRat
deriving DecidableEq

/-- `analyzeBillText` of the source. -/
def analyzeBillText (billText : String) : AnalysisResult :=
  let charges := extractCharges billText
  let lineItems := detectOvercharges charges
  let totalBilled := jsum (charges.map (·.billedAmount))
  let totalFairPrice := jadd (jsum (lineItems.map (·.fairPrice)))
    (jsum ((charges.filter
      (fun c => !(lineItems.any (fun li => li.code == c.code)))).map (·.billedAmount)))
  let potentialSavings := jsum (lineItems.map (·.savings))
  ⟨lineItems, jround2 totalBilled, jround2 totalFairPrice, jround2 potentialSavings⟩

/-! ### Support lemmas about the medical analyzer -/

theorem analyzeBillText_lineItems (t : String) :
    (analyzeBillText t).lineItems = detectOvercharges (extractCharges t) := rfl

/-- A true JS `<` forces both operands finite. -/
theorem jltB_true_fin {a b : JRat} (h : jltB a b = true) : a.IsFin ∧ b.IsFin := by
  simp only [jltB, Bool.and_eq_true, bne_iff_ne, ne_eq] at h
  exact ⟨h.1.1, h.1.2⟩

/-- A true JS `<` gives the rational strict order. -/
theorem jltB_true_toRat {a b : JRat} (h : jltB a b = true) : a.toRat < b.toRat :=
  (jltB_iff (jltB_true_fin h).1 (jltB_true_fin h).2).mp h

/-- A true JS `==` against an integer pins down the rational value. -/
theorem toRat_eq_of_jeqB {x : JRat} {n : Int} (h : jeqB x (jint n) = true) :
    x.toRat = (n : ℚ) := by
  have hx : x.IsFin := by
    simp only [jeqB, Bool.and_eq_true, bne_iff_ne, ne_eq] at h
    exact h.1.1
  have := (jeqB_iff hx (isFin_jint n)).mp h
  simpa using this

/-- Every price in the static table has denominator 100 and a positive
numerator. -/
theorem fairLookup_shape {code : String} {f : JRat} (h : fairLookup code = some f) :
    f.den = 100 ∧ 0 < f.num := by
  have hall : ∀ e ∈ FAIR_PRICE_DB, e.2.den = 100 ∧ 0 < e.2.num := by decide
  unfold fairLookup at h
  rcases hfind : FAIR_PRICE_DB.find? (fun e => e.1 == code) with _ | e
  · rw [hfind] at h
    exact absurd h (by simp)
  · rw [hfind] at h
    obtain rfl : e.2 = f := by simpa using h
    exact hall e (List.mem_of_find?_eq_some hfind)

theorem fairLookup_fin {code : String} {f : JRat} (h : fairLookup code = some f) :
    f.IsFin := by
  have := (fairLookup_shape h).1
  simp [JRat.IsFin, this]

/-- Inversion for the per-charge flagging step of `detectOvercharges`. -/
theorem flagCharge_eq_some {c : ExtractedCharge} {it : FlaggedItem} :
    flagCharge c = some it ↔
      ∃ f, fairLookup c.code = some f
        ∧ jltB (jmul f OVERCHARGE_THRESHOLD) c.billedAmount = true
        ∧ it = ⟨c.code, c.billedAmount, f, jround2 (jsub c.billedAmount f),
            jround2 (jmin (jint 95) (jadd (jint 50)
              (jmul (jsub (jdiv c.billedAmount f) (jint 1)) (jint 30))))⟩ := by
  rcases hf : fairLookup c.code with _ | f
  · have hred : flagCharge c = none := by
      unfold flagCharge
      rw [hf]
    rw [hred]
    simp
  · have hred : flagCharge c
        = (if jltB (jmul f OVERCHARGE_THRESHOLD) c.billedAmount then
            some (⟨c.code, c.billedAmount, f, jround2 (jsub c.billedAmount f),
              jround2 (jmin (jint 95) (jadd (jint 50)
                (jmul (jsub (jdiv c.billedAmount f) (jint 1)) (jint 30))))⟩ : FlaggedItem)
          else none) := by
      unfold flagCharge
      rw [hf]
    rw [hred]
    rcases hlt : jltB (jmul f OVERCHARGE_THRESHOLD) c.billedAmount
    · simp [hlt]
    · constructor
      · intro h
        have h2 : some (⟨c.code, c.billedAmount, f, jround2 (jsub c.billedAmount f),
            jround2 (jmin (jint 95) (jadd (jint 50)
              (jmul (jsub (jdiv c.billedAmount f) (jint 1)) (jint 30))))⟩ : FlaggedItem)
            = some it := h
        exact ⟨f, rfl, hlt, (Option.some_inj.mp h2).symm⟩
      · rintro ⟨f', hf', hlt', rfl⟩
        obtain rfl : f = f' := by simpa using hf'
        rfl

/-- Membership in the sorted flag list is membership in the unsorted one. -/
theorem mem_detectOvercharges {charges : List ExtractedCharge} {it : FlaggedItem} :
    it ∈ detectOvercharges charges ↔ ∃ c ∈ charges, flagCharge c = some it := by
  unfold detectOvercharges sortBySavingsDesc
  rw [List.mem_mergeSort, List.mem_filterMap]

/-- Every extracted charge passed the positive-maximum guard. -/
theorem extractCharges_pos {t : String} {c : ExtractedCharge}
    (hc : c ∈ extractCharges t) : jltB (jint 0) c.billedAmount = true := by
  unfold extractCharges at hc
  rw [List.mem_filterMap] at hc
  obtain ⟨line, _, hline⟩ := hc
  unfold chargeOfLine at hline
  rcases hcode : findCodeAux false line with _ | code
  · rw [hcode] at hline; exact absurd hline (by simp)
  · rw [hcode] at hline
    simp only at hline
    rcases hpos : jltB (jint 0) ((medAmountsOf line).foldl
        (fun m a => if jltB m a && jltB a (jint 1000000) then a else m) (jint 0)) with hF | hT
    · rw [hpos] at hline
      exact absurd hline (by simp)
    · rw [hpos] at hline
      simp only [if_true, Option.some.injEq] at hline
      rw [← hline]
      exact hpos

/-! ### C4: medical flagging rule -/

/-- C4.  An extracted charge whose code is in the fair-price table is
flagged iff `billedAmount > fairPrice · 1.3`, and the flagged item then
carries `savings = round2(billedAmount - fairPrice)` and
`confidence = round2(min 95 (50 + (billed/fair - 1)·30))`. -/
theorem C4_medical_flag_iff (t : String) (c : ExtractedCharge) (f : JRat)
    (hc : c ∈ extractCharges t) (hf : fairLookup c.code = some f) :
    (∃ it ∈ (analyzeBillText t).lineItems,
        it.code = c.code ∧ it.billedAmount = c.billedAmount ∧ it.fairPrice = f
          ∧ it.savings.toRat = round2q (c.billedAmount.toRat - f.toRat)
          ∧ it.confidence.toRat
              = round2q (min 95 (50 + (c.billedAmount.toRat / f.toRat - 1) * 30)))
      ↔ f.toRat * (13 / 10) < c.billedAmount.toRat := by
  have hbfin : c.billedAmount.IsFin := (jltB_true_fin (extractCharges_pos hc)).2
  have hffin : f.IsFin := fairLookup_fin hf
  have hfpos : 0 < f.num := (fairLookup_shape hf).2
  have hth : (OVERCHARGE_THRESHOLD).toRat = 13 / 10 := by
    simp [OVERCHARGE_THRESHOLD]; try norm_num
  have hmulfin : (jmul f OVERCHARGE_THRESHOLD).IsFin := isFin_jmul hffin (by decide)
  have hcond : jltB (jmul f OVERCHARGE_THRESHOLD) c.billedAmount = true
      ↔ f.toRat * (13 / 10) < c.billedAmount.toRat := by
    rw [jltB_iff hmulfin hbfin, toRat_jmul, hth]
  constructor
  · rintro ⟨it, hmem, hcode, hbilled, -, -, -⟩
    rw [analyzeBillText_lineItems, mem_detectOvercharges] at hmem
    obtain ⟨c', hc', hflag⟩ := hmem
    obtain ⟨f', hf', hlt', rfl⟩ := flagCharge_eq_some.mp hflag
    simp only at hcode hbilled
    rw [hcode] at hf'
    rw [hf] at hf'
    obtain rfl : f = f' := by simpa using hf'
    rw [hbilled] at hlt'
    exact hcond.mp hlt'
  · intro hgt
    have hlt : jltB (jmul f OVERCHARGE_THRESHOLD) c.billedAmount = true := hcond.mpr hgt
    refine ⟨⟨c.code, c.billedAmount, f, jround2 (jsub c.billedAmount f),
      jround2 (jmin (jint 95) (jadd (jint 50)
        (jmul (jsub (jdiv c.billedAmount f) (jint 1)) (jint 30))))⟩, ?_, rfl, rfl, rfl, ?_, ?_⟩
    · rw [analyzeBillText_lineItems, mem_detectOvercharges]
      exact ⟨c, hc, flagCharge_eq_some.mpr ⟨f, hf, hlt, rfl⟩⟩
    · simp only
      rw [toRat_jround2, toRat_jsub hbfin hffin]
    · have hdivfin : (jdiv c.billedAmount f).IsFin := isFin_jdiv hbfin hffin hfpos.ne'
      have h30fin : (jmul (jsub (jdiv c.billedAmount f) (jint 1)) (jint 30)).IsFin :=
        isFin_jmul (isFin_jsub hdivfin (isFin_jint 1)) (isFin_jint 30)
      simp only
      rw [toRat_jround2, toRat_jmin (isFin_jint 95) (isFin_jadd (isFin_jint 50) h30fin),
        toRat_jadd (isFin_jint 50) h30fin, toRat_jmul,
        toRat_jsub hdivfin (isFin_jint 1), toRat_jdiv c.billedAmount hffin hfpos]
      simp

/-! ### C10: amounts of 1,000,000 or more are ignored -/

/-- Per-line extraction the way the claim words it: the billed amount is
the maximum over the parsed amounts below 1,000,000 (filter first, then a
plain maximum). -/
def chargeOfLineSpec (line : List Char) : Option ExtractedCharge :=
  match findCodeAux false line with
  | none => none
  | some code =>
    let amounts := (medAmountsOf line).filter (fun a => jltB a (jint 1000000))
    let maxAmount := amounts.foldl (fun m a => if jltB m a then a else m) (jint 0)
    if jltB (jint 0) maxAmount then some ⟨code, maxAmount⟩ else none

/-- The running maximum with an embedded bound equals the plain running
maximum over the filtered list. -/
theorem foldPick_eq_filter (l : List JRat) : ∀ m : JRat,
    l.foldl (fun m a => if jltB m a && jltB a (jint 1000000) then a else m) m
      = (l.filter (fun a => jltB a (jint 1000000))).foldl
          (fun m a => if jltB m a then a else m) m := by
  induction l with
  | nil => intro m; rfl
  | cons a l ih =>
    intro m
    rcases h : jltB a (jint 1000000)
    · simp only [List.foldl_cons, List.filter_cons, h, Bool.and_false, Bool.false_eq_true,
        if_false, ih]
    · simp only [List.foldl_cons, List.filter_cons, h, Bool.and_true, if_true, ih]

/-- C10.  In the medical charge extraction, monetary amounts of 1,000,000
or more are ignored when selecting the maximum amount on a line: the
extracted charge is exactly the one computed from the maximum of the
sub-million amounts, so a line whose positive amounts are all at least
1,000,000 contributes no charge. -/
theorem C10_extraction_ignores_big_amounts :
    (∀ line, chargeOfLine line = chargeOfLineSpec line)
    ∧ (∀ billText, extractCharges billText = (linesOf billText).filterMap chargeOfLineSpec)
    ∧ ∀ line, (∀ v ∈ medAmountsOf line, jltB v (jint 1000000) = false) →
        chargeOfLine line = none := by
  have hline : ∀ line, chargeOfLine line = chargeOfLineSpec line := by
    intro line
    unfold chargeOfLine chargeOfLineSpec
    rcases findCodeAux false line with _ | code
    · rfl
    · show (if jltB (jint 0) ((medAmountsOf line).foldl
            (fun m a => if jltB m a && jltB a (jint 1000000) then a else m) (jint 0)) then
          some (ExtractedCharge.mk code ((medAmountsOf line).foldl
            (fun m a => if jltB m a && jltB a (jint 1000000) then a else m) (jint 0)))
        else none) = _
      rw [foldPick_eq_filter]
  refine ⟨hline, fun t => ?_, fun line hall => ?_⟩
  · unfold extractCharges
    exact congrArg (fun f => List.filterMap f (linesOf t)) (funext hline)
  · rw [hline line]
    unfold chargeOfLineSpec
    rcases findCodeAux false line with _ | code
    · rfl
    · have hfilter : (medAmountsOf line).filter (fun a => jltB a (jint 1000000)) = [] :=
        List.filter_eq_nil_iff.mpr (fun a ha => by rw [hall a ha]; exact Bool.false_ne_true)
      show (if jltB (jint 0) (((medAmountsOf line).filter
            (fun a => jltB a (jint 1000000))).foldl
            (fun m a => if jltB m a then a else m) (jint 0)) then
          some (ExtractedCharge.mk code (((medAmountsOf line).filter
            (fun a => jltB a (jint 1000000))).foldl
            (fun m a => if jltB m a then a else m) (jint 0)))
        else none) = none
      rw [hfilter]
      rfl

/-! ### C6: the medical fair total (corrected) -/

/-- The flagged items before sorting. -/
def medFlaggedOf (t : String) : List FlaggedItem := (extractCharges t).filterMap flagCharge

/-- Modelled from the claim's words: fair total = `round2` of the sum of
`fairPrice` over the flagged items plus the sum of `billedAmount` over
every extracted charge that is not flagged (no item emitted for it). -/
def medClaimFairTotal (t : String) : JRat :=
  jround2 (jadd (jsum ((analyzeBillText t).lineItems.map (·.fairPrice)))
    (jsum (((extractCharges t).filter (fun c => (flagCharge c).isNone)).map (·.billedAmount))))

unseal List.merge List.mergeSort in
/-- C6 counterexample: with the same code flagged on one line and
extracted-but-unflagged on another, the analyzer's `totalFairPrice` is
1800 while the claim's formula demands 3800 — the code drops the billed
amount of every unflagged charge whose code also appears flagged. -/
theorem C6_counterexample :
    (analyzeBillText "27447 $5,000.00\n27447 $2,000.00").totalFairPrice.toRat = 1800
      ∧ (medClaimFairTotal "27447 $5,000.00\n27447 $2,000.00").toRat = 3800 := by
  constructor
  · have h := toRat_eq_of_jeqB
      (x := (analyzeBillText "27447 $5,000.00\n27447 $2,000.00").totalFairPrice)
      (n := 1800) (by decide)
    simpa using h
  · have h := toRat_eq_of_jeqB
      (x := medClaimFairTotal "27447 $5,000.00\n27447 $2,000.00")
      (n := 3800) (by decide)
    simpa using h

/-- Folding JS sums is right-commutative (the unreduced pairs agree
component-wise by ring identities), so sums ignore permutations. -/
theorem jadd_right_comm (s a b : JRat) : jadd (jadd s a) b = jadd (jadd s b) a := by
  simp only [jadd, JRat.mk.injEq]
  constructor
  · push_cast
    ring
  · ring

theorem jsum_perm {l l' : List JRat} (h : l.Perm l') : jsum l = jsum l' := by
  unfold jsum
  exact @List.Perm.foldl_eq _ _ jadd _ _ ⟨jadd_right_comm⟩ h (jint 0)

theorem any_perm {α : Type} {l l' : List α} (h : l.Perm l') (p : α → Bool) :
    l.any p = l'.any p := by
  by_cases hT : l'.any p = true
  · rw [hT]
    obtain ⟨x, hm, hp⟩ := List.any_eq_true.mp hT
    exact List.any_eq_true.mpr ⟨x, h.mem_iff.mpr hm, hp⟩
  · have hL : ¬ l.any p = true := fun hc => by
      obtain ⟨x, hm, hp⟩ := List.any_eq_true.mp hc
      exact hT (List.any_eq_true.mpr ⟨x, h.mem_iff.mp hm, hp⟩)
    rw [Bool.not_eq_true] at hL hT
    rw [hL, hT]

/-- C6 amended: `totalFairPrice` is `round2` of the sum of `fairPrice`
over the flagged items plus the sum of `billedAmount` over the extracted
charges whose code does not appear among the flagged items' codes. -/
theorem C6_amended (t : String) :
    (analyzeBillText t).totalFairPrice
      = jround2 (jadd (jsum ((medFlaggedOf t).map (·.fairPrice)))
          (jsum (((extractCharges t).filter
            (fun c => !((medFlaggedOf t).any (fun li => li.code == c.code)))).map
              (·.billedAmount)))) := by
  have hperm : (detectOvercharges (extractCharges t)).Perm (medFlaggedOf t) :=
    List.mergeSort_perm _ _
  show jround2 (jadd (jsum ((detectOvercharges (extractCharges t)).map (·.fairPrice)))
      (jsum (((extractCharges t).filter
        (fun c => !((detectOvercharges (extractCharges t)).any
          (fun li => li.code == c.code)))).map (·.billedAmount)))) = _
  rw [jsum_perm (hperm.map (·.fairPrice)),
    List.filter_congr (fun c _ => by rw [any_perm hperm])]

/-! ### Utility analyzer (`src/lib/services/utility-analyzer.ts`) -/

/-- The shared result shape of the category analyzers (`providerName` and
`analysisNotes` omitted). -/
structure UnifiedAnalysisResult where
  category : String
  disputeType : String
  lineItems : List FlaggedItem
  totalBilled : JRat
  totalFairPrice : JRat
  potentialSavings : JRat
deriving DecidableEq

/-- `/back.?bill|adjustment|correction/i`. -/
def backBillPat : List (List Tok) :=
  [[L "back", Tok.anyOpt, L "bill"], [L "adjustment"], [L "correction"]]

/-- `/service\s+fee/i`. -/
def serviceFeePat : List (List Tok) := [[L "service", Tok.ws1, L "fee"]]

/-- `/estimated|est\b/i`. -/
def estPat : List (List Tok) := [[L "estimated"], [L "est", Tok.eow]]

/-- `/actual/i`. -/
def actualPat : List (List Tok) := [[L "actual"]]

def monthWords : List (List Char) :=
  (["jan", "feb", "mar", "apr", "may", "jun",
    "jul", "aug", "sep", "oct", "nov", "dec"].map String.data)

/-- Four leading digits (`\d{4}` at this position). -/
def fourDigitsAt : List Char → Bool
  | a :: b :: c :: d :: _ => isDigitC a && isDigitC b && isDigitC c && isDigitC d
  | _ => false

/-- `/(jan|…|dec)\w*\s+\d{4}/i` at this position: a month word, the rest
of the word (`\w*` can only succeed by taking the whole word run, since
`\s+` cannot match a word character), at least one whitespace, then four
digits. -/
def monthAt (s : List Char) : Bool :=
  monthWords.any fun w =>
    match stripPref w s with
    | some r =>
      (match r.dropWhile isWordC with
       | c :: r3 => isWsC c && fourDigitsAt (r3.dropWhile isWsC)
       | [] => false)
    | none => false

/-- Does the pattern occur at some position of the list? -/
def anySuffix (p : List Char → Bool) : List Char → Bool
  | [] => p []
  | c :: cs => p (c :: cs) || anySuffix p cs

/-- The month-plus-year test of the utility extractor. -/
def hasMonthYear (line : List Char) : Bool := anySuffix monthAt (lowerL line)

/-- One extracted billing period (`period` label and `rawLine` omitted). -/
structure ExtractedBillingPeriod where
  usage : JRat
  rate : JRat
  amount : JRat
  isEstimated : Bool
deriving DecidableEq

/-- The state built by `extractBillingPeriods`. -/
structure UtilExtraction where
  periods : List ExtractedBillingPeriod
  backBillAmount : JRat
  serviceFee : JRat
deriving DecidableEq

/-- One loop iteration of `extractBillingPeriods` (the `continue`s become
the if-else cascade; assignments overwrite the state). -/
def utilLineStep (st : UtilExtraction) (line : List Char) : UtilExtraction :=
  if testCI backBillPat line then
    match findDollar line with
    | some v => { st with backBillAmount := v }
    | none => st
  else if testCI serviceFeePat line then
    match findDollar line with
    | some v => { st with serviceFee := v }
    | none => st
  else if hasMonthYear line then
    match utilAmountsOf line with
    | u :: r :: _ =>
      let amount :=
        match findDollar line with
        | some v => v
        | none => jmul u r
      let isEst := testCI estPat line && !(testCI actualPat line)
      { st with periods := st.periods ++ [⟨u, r, amount, isEst⟩] }
    | _ => st
  else st

/-- `extractBillingPeriods` of the source. -/
def extractBillingPeriods (billText : String) : UtilExtraction :=
  (linesOf billText).foldl utilLineStep ⟨[], jint 0, jint 0⟩

def MAX_BACK_BILL_MONTHS : Nat := 12

/-- The back-billing flags (first push of `analyzeUtilityBill`). -/
def utilBackBillItems (E : UtilExtraction) : List FlaggedItem :=
  if jltB (jint 0) E.backBillAmount
      && decide ((E.periods.filter (·.isEstimated)).length > MAX_BACK_BILL_MONTHS) then
    [⟨"BACK_BILL", E.backBillAmount, jint 0, E.backBillAmount, jint 92⟩]
  else if jltB (jint 0) E.backBillAmount then
    [⟨"BACK_BILL", E.backBillAmount, jmul E.backBillAmount (J 5 10),
      jround2 (jmul E.backBillAmount (J 5 10)), jint 65⟩]
  else []

/-- `estTotal` of the estimated-reading block. -/
def utilEstTotal (E : UtilExtraction) : JRat :=
  jsum ((E.periods.filter (·.isEstimated)).map (·.amount))

/-- `avgEstUsage` of the estimated-reading block. -/
def utilAvgEstUsage (E : UtilExtraction) : JRat :=
  jdiv (jsum ((E.periods.filter (·.isEstimated)).map (·.usage)))
    (jint (E.periods.filter (·.isEstimated)).length)

/-- `avgActualUsage` of the estimated-reading block (falls back to the
estimated average when no actual period exists). -/
def utilAvgActualUsage (E : UtilExtraction) : JRat :=
  if (E.periods.filter (fun p => !p.isEstimated)).length > 0 then
    jdiv (jsum ((E.periods.filter (fun p => !p.isEstimated)).map (·.usage)))
      (jint (E.periods.filter (fun p => !p.isEstimated)).length)
  else utilAvgEstUsage E

/-- The estimated-reading flag (second push of `analyzeUtilityBill`). -/
def utilEstOverItems (E : UtilExtraction) : List FlaggedItem :=
  if (E.periods.filter (·.isEstimated)).length > 3 then
    if jltB (jmul (utilAvgActualUsage E) (J 115 100)) (utilAvgEstUsage E) then
      [⟨"EST_OVER", utilEstTotal E,
        jround2 (jmul (utilEstTotal E) (jdiv (utilAvgActualUsage E) (utilAvgEstUsage E))),
        jround2 (jmul (utilEstTotal E)
          (jsub (jint 1) (jdiv (utilAvgActualUsage E) (utilAvgEstUsage E)))),
        jint 78⟩]
    else []
  else []

/-- Deduplication by JS number equality, preserving first occurrences
(`[...new Set(rates)]`; the rates list never holds NaN because it was
filtered by `> 0`, so `jeqB` is the Set's number equality here). -/
def jdedupAux (seen : List JRat) : List JRat → List JRat
  | [] => []
  | x :: xs =>
    if seen.any fun y => jeqB y x then jdedupAux seen xs
    else x :: jdedupAux (x :: seen) xs

def jdedup (l : List JRat) : List JRat := jdedupAux [] l

/-- `Math.min(...l)` over a nonempty list. -/
def jminList : List JRat → JRat
  | [] => jnan
  | x :: xs => xs.foldl jmin x

/-- `Math.max(...l)` over a nonempty list. -/
def jmaxList : List JRat → JRat
  | [] => jnan
  | x :: xs => xs.foldl jmax x

/-- The deduplicated positive rates (`[...new Set(rates)]`). -/
def utilUniqueRates (E : UtilExtraction) : List JRat :=
  jdedup ((E.periods.map (·.rate)).filter (fun r => jltB (jint 0) r))

/-- The rate-hike flag (third push of `analyzeUtilityBill`). -/
def utilRateItems (E : UtilExtraction) : List FlaggedItem :=
  if (utilUniqueRates E).length > 1 then
    if jltB (jmul (jminList (utilUniqueRates E)) (J 11 10)) (jmaxList (utilUniqueRates E)) then
      [⟨"RATE_HIKE", jmaxList (utilUniqueRates E), jminList (utilUniqueRates E),
        jround2 (jsub (jmaxList (utilUniqueRates E)) (jminList (utilUniqueRates E))), jint 60⟩]
    else []
  else []

/-- All flagged items of the utility analyzer, in push order. -/
def utilItems (E : UtilExtraction) : List FlaggedItem :=
  utilBackBillItems E ++ utilEstOverItems E ++ utilRateItems E

/-- `totalBilled` before rounding: period amounts, then the back-bill,
then the service fee. -/
def utilRawTotalBilled (E : UtilExtraction) : JRat :=
  jadd (jadd (jsum (E.periods.map (·.amount))) E.backBillAmount) E.serviceFee

/-- `analyzeUtilityBill` of the source. -/
def analyzeUtilityBill (billText : String) : UnifiedAnalysisResult :=
  let E := extractBillingPeriods billText
  let flaggedItems := utilItems E
  let potentialSavings := jsum (flaggedItems.map (·.savings))
  ⟨"utility", "Back-Billing & Meter Errors", flaggedItems,
    jround2 (utilRawTotalBilled E),
    jround2 (jsub (utilRawTotalBilled E) potentialSavings),
    jround2 potentialSavings⟩

/-! ### C5: the back-billing rule -/

/-- C5.  If `backBillAmount > 0` and more than 12 estimated periods were
extracted, the first flagged item is a BACK_BILL item disputing the full
amount (`fairPrice 0`, `savings = backBillAmount`, confidence 92);
otherwise with `backBillAmount > 0` (at most 12 estimated periods) it is
a BACK_BILL item with `fairPrice = backBillAmount · 0.5`,
`savings = round2(backBillAmount · 0.5)` and confidence 65. -/
theorem C5_utility_backBill (t : String) :
    (jltB (jint 0) (extractBillingPeriods t).backBillAmount = true →
      ((extractBillingPeriods t).periods.filter (·.isEstimated)).length > 12 →
      (analyzeUtilityBill t).lineItems.head?
        = some ⟨"BACK_BILL", (extractBillingPeriods t).backBillAmount, jint 0,
            (extractBillingPeriods t).backBillAmount, jint 92⟩)
    ∧ (jltB (jint 0) (extractBillingPeriods t).backBillAmount = true →
      ((extractBillingPeriods t).periods.filter (·.isEstimated)).length ≤ 12 →
      (analyzeUtilityBill t).lineItems.head?
        = some ⟨"BACK_BILL", (extractBillingPeriods t).backBillAmount,
            jmul (extractBillingPeriods t).backBillAmount (J 5 10),
            jround2 (jmul (extractBillingPeriods t).backBillAmount (J 5 10)), jint 65⟩) := by
  have hitems : (analyzeUtilityBill t).lineItems = utilItems (extractBillingPeriods t) := rfl
  constructor
  · intro hb hc
    have hdec : decide (((extractBillingPeriods t).periods.filter (·.isEstimated)).length
        > MAX_BACK_BILL_MONTHS) = true := decide_eq_true hc
    rw [hitems]
    unfold utilItems utilBackBillItems
    rw [hb, hdec]
    simp
  · intro hb hc
    have hdec : decide (((extractBillingPeriods t).periods.filter (·.isEstimated)).length
        > MAX_BACK_BILL_MONTHS) = false := decide_eq_false (not_lt.mpr hc)
    rw [hitems]
    unfold utilItems utilBackBillItems
    rw [hb, hdec]
    simp

set_option maxRecDepth 40000 in
/-- C5 witness: 14 estimated-labelled monthly periods plus a back-bill
line of `$1,334.00` yield a BACK_BILL item with confidence 92 disputing
the full 1334.00. -/
theorem C5_utility_backBill_witness :
    ∃ it : FlaggedItem,
      (analyzeUtilityBill ("jan 2023 est 1 $9\njan 2023 est 1 $9\njan 2023 est 1 $9\n"
          ++ "jan 2023 est 1 $9\njan 2023 est 1 $9\njan 2023 est 1 $9\njan 2023 est 1 $9\n"
          ++ "jan 2023 est 1 $9\njan 2023 est 1 $9\njan 2023 est 1 $9\njan 2023 est 1 $9\n"
          ++ "jan 2023 est 1 $9\njan 2023 est 1 $9\njan 2023 est 1 $9\n"
          ++ "backbill $1,334.00")).lineItems.head? = some it
        ∧ it.code = "BACK_BILL" ∧ it.confidence = jint 92
        ∧ it.billedAmount.toRat = 1334 ∧ it.savings.toRat = 1334 ∧ it.fairPrice = jint 0 := by
  have h := (C5_utility_backBill ("jan 2023 est 1 $9\njan 2023 est 1 $9\njan 2023 est 1 $9\n"
      ++ "jan 2023 est 1 $9\njan 2023 est 1 $9\njan 2023 est 1 $9\njan 2023 est 1 $9\n"
      ++ "jan 2023 est 1 $9\njan 2023 est 1 $9\njan 2023 est 1 $9\njan 2023 est 1 $9\n"
      ++ "jan 2023 est 1 $9\njan 2023 est 1 $9\njan 2023 est 1 $9\n"
      ++ "backbill $1,334.00")).1 (by decide) (by decide)
  refine ⟨_, h, rfl, rfl, ?_, ?_, rfl⟩
  · exact (toRat_eq_of_jeqB (n := 1334) (by decide)).trans (by norm_num)
  · exact (toRat_eq_of_jeqB (n := 1334) (by decide)).trans (by norm_num)

/-! ### C7: the utility totals -/

/-- Folding `jadd` over finite values stays finite and adds the values. -/
theorem foldl_jadd_fin_toRat (l : List JRat) : ∀ acc : JRat,
    (∀ x ∈ l, x.IsFin) → acc.IsFin →
    (l.foldl jadd acc).IsFin
      ∧ (l.foldl jadd acc).toRat = acc.toRat + (l.map JRat.toRat).sum := by
  induction l with
  | nil => intro acc _ hacc; simpa using hacc
  | cons a l ih =>
    intro acc hall hacc
    have ha : a.IsFin := hall a (List.mem_cons_self _ _)
    have h1 := ih (jadd acc a) (fun x hx => hall x (List.mem_cons_of_mem _ hx))
      (isFin_jadd hacc ha)
    simp only [List.foldl_cons, List.map_cons, List.sum_cons]
    exact ⟨h1.1, by rw [h1.2, toRat_jadd hacc ha]; ring⟩

theorem jsum_fin_toRat {l : List JRat} (h : ∀ x ∈ l, x.IsFin) :
    (jsum l).IsFin ∧ (jsum l).toRat = (l.map JRat.toRat).sum := by
  have := foldl_jadd_fin_toRat l (jint 0) h (isFin_jint 0)
  unfold jsum
  simpa using this

/-- C7.  The utility analyzer reports `totalBilled` as the rounded sum of
all extracted period amounts plus `backBillAmount` plus `serviceFee`, and
`totalFairPrice` by direct subtraction `totalBilled - potentialSavings`
(unrounded operands, each reported total rounded to cents) — not by
per-line accumulation.  The third part restates the billed total on the
denoted rationals when the extracted values are finite. -/
theorem C7_utility_totals (t : String) :
    (analyzeUtilityBill t).totalBilled = jround2 (utilRawTotalBilled (extractBillingPeriods t))
    ∧ (analyzeUtilityBill t).totalFairPrice
        = jround2 (jsub (utilRawTotalBilled (extractBillingPeriods t))
            (jsum ((utilItems (extractBillingPeriods t)).map (·.savings))))
    ∧ ((∀ p ∈ (extractBillingPeriods t).periods, p.amount.IsFin) →
        (extractBillingPeriods t).backBillAmount.IsFin →
        (extractBillingPeriods t).serviceFee.IsFin →
        (analyzeUtilityBill t).totalBilled.toRat
          = round2q ((((extractBillingPeriods t).periods.map (fun p => p.amount.toRat)).sum
              + (extractBillingPeriods t).backBillAmount.toRat)
              + (extractBillingPeriods t).serviceFee.toRat)) := by
  refine ⟨rfl, rfl, fun hp hb hs => ?_⟩
  have hsum := jsum_fin_toRat (l := (extractBillingPeriods t).periods.map (·.amount))
    (by intro x hx; obtain ⟨p, hp', rfl⟩ := List.mem_map.mp hx; exact hp p hp')
  have hfin1 : (jadd (jsum ((extractBillingPeriods t).periods.map (·.amount)))
      (extractBillingPeriods t).backBillAmount).IsFin := isFin_jadd hsum.1 hb
  show (jround2 (utilRawTotalBilled (extractBillingPeriods t))).toRat = _
  rw [toRat_jround2]
  unfold utilRawTotalBilled
  rw [toRat_jadd hfin1 hs, toRat_jadd hsum.1 hb, hsum.2, List.map_map]
  rfl

/-- C7 witness: a small utility statement with one period and a service
fee, with every extracted value finite. -/
theorem C7_utility_totals_witness :
    (analyzeUtilityBill "jan 2023 est 2 $8\nservice fee $1.50").totalBilled.toRat
      = round2q ((((extractBillingPeriods "jan 2023 est 2 $8\nservice fee $1.50").periods.map
            (fun p => p.amount.toRat)).sum
          + (extractBillingPeriods "jan 2023 est 2 $8\nservice fee $1.50").backBillAmount.toRat)
          + (extractBillingPeriods "jan 2023 est 2 $8\nservice fee $1.50").serviceFee.toRat) :=
  (C7_utility_totals "jan 2023 est 2 $8\nservice fee $1.50").2.2
    (by decide) (by decide) (by decide)

/-- C4 witness: the line `99285 ... $2,450.00` is flagged by the medical
analyzer with savings exactly 1740.00. -/
theorem C4_medical_flag_iff_witness :
    ∃ it ∈ (analyzeBillText "99285 Emergency dept visit   $2,450.00").lineItems,
      it.code = "99285" ∧ it.savings.toRat = 1740 := by
  obtain ⟨it, hmem, hcode, -, -, hsav, -⟩ :=
    (C4_medical_flag_iff "99285 Emergency dept visit   $2,450.00"
        ⟨"99285", J 245000 100⟩ (J 71000 100) (by decide) (by decide)).mpr
      (by rw [toRat_J, toRat_J]; norm_num)
  refine ⟨it, hmem, hcode, ?_⟩
  rw [hsav, toRat_J, toRat_J]
  rw [round2q, round_eq]
  norm_num

/-! ### Rent analyzer (`src/lib/services/rent-analyzer.ts`) -/

/-- `QUESTIONABLE_FEES` (legal notes omitted): fee key → `maxReasonable`. -/
def QUESTIONABLE_FEES : List (String × JRat) := [
  ("admin_fee", jint 0), ("amenity_fee", jint 50), ("trash_fee", jint 25),
  ("digital_fee", jint 0), ("insurance_fee", jint 0), ("parking_fee", jint 100),
  ("cam_fee", jint 150), ("cam_reconciliation", jint 0)]

def feeLookup (key : String) : Option JRat :=
  (QUESTIONABLE_FEES.find? (fun e => e.1 == key)).map (·.2)

/-- `FEE_PATTERNS`, in order; the first matching pattern wins. -/
def FEE_PATTERNS : List (List (List Tok) × String) := [
  ([[L "admin"], [L "processing"]], "admin_fee"),
  ([[L "amenity"]], "amenity_fee"),
  ([[L "trash"], [L "garbage"], [L "waste"]], "trash_fee"),
  ([[L "digital"], [L "portal"], [L "access"], [L "technology"]], "digital_fee"),
  ([[L "insurance", Tok.ws1, L "require"], [L "insurance", Tok.ws1, L "fee"]], "insurance_fee"),
  ([[L "parking"]], "parking_fee"),
  ([[L "common", Tok.ws1, L "area"], [L "cam", Tok.eow],
    [L "maintenance", Tok.ws1, L "charge"], [L "maintenance", Tok.ws1, L "fee"]], "cam_fee"),
  ([[L "cam", Tok.ws1, L "reconcil"], [L "cam", Tok.ws1, L "adjust"],
    [L "cam", Tok.ws1, L "true", Tok.anyOpt, L "up"]], "cam_reconciliation")]

/-- `/base\s+rent/i`. -/
def baseRentPat : List (List Tok) := [[L "base", Tok.ws1, L "rent"]]

/-- `/late|fee|charge/i`. -/
def lateFeeChargePat : List (List Tok) := [[L "late"], [L "fee"], [L "charge"]]

/-- `/late\s+(fee|charge|penalty)/i`. -/
def lateFeePat : List (List Tok) :=
  [[L "late", Tok.ws1, L "fee"], [L "late", Tok.ws1, L "charge"], [L "late", Tok.ws1, L "penalty"]]

/-- `/rent\s+increase|new\s+rent|previous\s+rent|old\s+rent/i`. -/
def rentIncLinePat : List (List Tok) :=
  [[L "rent", Tok.ws1, L "increase"], [L "new", Tok.ws1, L "rent"],
   [L "previous", Tok.ws1, L "rent"], [L "old", Tok.ws1, L "rent"]]

/-- `/grace\s+period[:\s]*none/i`. -/
def graceNonePat : List (List Tok) := [[L "grace", Tok.ws1, L "period", Tok.cwsStar, L "none"]]

/-- `/notice[:\s]*none|no\s+prior\s+notice|without\s+notice/i`. -/
def noticeNonePat : List (List Tok) :=
  [[L "notice", Tok.cwsStar, L "none"], [L "no", Tok.ws1, L "prior", Tok.ws1, L "notice"],
   [L "without", Tok.ws1, L "notice"]]

/-- First succeeding position of a prefix recogniser (leftmost match). -/
def scanOpt {α : Type} (f : List Char → Option α) : List Char → Option α
  | [] => f []
  | c :: cs =>
    match f (c :: cs) with
    | some v => some v
    | none => scanOpt f cs

/-- `/grace\s+period[:\s]*(\d+)\s*day/i` at this position.  The quantified
parts are matched by maximal munch, which is faithful: each is followed by
a literal whose first character the quantified class cannot contain. -/
def findGraceDaysAt (s : List Char) : Option Nat :=
  match stripPref "grace".data s with
  | none => none
  | some r1 =>
    match r1 with
    | [] => none
    | c :: r2 =>
      if isWsC c then
        match stripPref "period".data (r2.dropWhile isWsC) with
        | none => none
        | some r4 =>
          let r5 := r4.dropWhile fun c => c == ':' || isWsC c
          let ds := r5.takeWhile isDigitC
          if ds.isEmpty then none
          else
            match stripPref "day".data ((r5.dropWhile isDigitC).dropWhile isWsC) with
            | some _ => some (digitsVal ds)
            | none => none
      else none

/-- First `/grace\s+period[:\s]*(\d+)\s*day/i` match on a line, parsed. -/
def findGraceDays (line : List Char) : Option Nat := scanOpt findGraceDaysAt (lowerL line)

/-- `/(\d+)[\s-]*day\s+notice/i` at this position (same maximal-munch
faithfulness argument). -/
def findNoticeDaysAt (s : List Char) : Option Nat :=
  let ds := s.takeWhile isDigitC
  if ds.isEmpty then none
  else
    match stripPref "day".data ((s.dropWhile isDigitC).dropWhile fun c => c == '-' || isWsC c) with
    | none => none
    | some r1 =>
      match r1 with
      | [] => none
      | c :: r2 =>
        if isWsC c then
          match stripPref "notice".data (r2.dropWhile isWsC) with
          | some _ => some (digitsVal ds)
          | none => none
        else none

/-- First `/(\d+)[\s-]*day\s+notice/i` match on a line, parsed. -/
def findNoticeDays (line : List Char) : Option Nat := scanOpt findNoticeDaysAt (lowerL line)

/-- One detected questionable fee (`type` duplicates `key` in the source;
`rawLine` omitted). -/
structure RentCharge where
  key : String
  amount : JRat
deriving DecidableEq

/-- The state built by `extractRentCharges`. -/
structure RentExtraction where
  baseRent : JRat
  lateFee : JRat
  charges : List RentCharge
  gracePeriod : Option Nat
  noticeDays : Option Nat
  rentIncrease : Option (JRat × JRat)
deriving DecidableEq

/-- One iteration of the first loop of `extractRentCharges`.  The
`continue`s become the if-else cascade; the rent-increase check does not
`continue`, so its line still reaches the fee patterns.  The JS guard
`!isNaN(prev) && !isNaN(curr) && curr > prev` is exactly `jltB prev curr`. -/
def rentLineStep (st : RentExtraction) (line : List Char) : RentExtraction :=
  match findDollar line with
  | none => st
  | some v =>
    if v.den == 0 then st
    else if testCI baseRentPat line && !(testCI lateFeeChargePat line) then
      { st with baseRent := v }
    else if testCI lateFeePat line then
      { st with lateFee := v }
    else
      let st1 :=
        if testCI rentIncLinePat line then
          match dollarAmountsOf line with
          | p :: c :: _ => if jltB p c then { st with rentIncrease := some (p, c) } else st
          | _ => st
        else st
      match FEE_PATTERNS.find? (fun fp => testCI fp.1 line) with
      | some fp => { st1 with charges := st1.charges ++ [⟨fp.2, v⟩] }
      | none => st1

/-- The grace-period loop: a digit match assigns, an explicit `none`
overrides, later lines overwrite earlier ones. -/
def graceStep (g : Option Nat) (line : List Char) : Option Nat :=
  let g1 := match findGraceDays line with
    | some n => some n
    | none => g
  if testCI graceNonePat line then some 0 else g1

/-- The notice-days loop, same structure. -/
def noticeStep (n : Option Nat) (line : List Char) : Option Nat :=
  let n1 := match findNoticeDays line with
    | some k => some k
    | none => n
  if testCI noticeNonePat line then some 0 else n1

/-- `extractRentCharges` of the source (three passes over the lines). -/
def extractRentCharges (billText : String) : RentExtraction :=
  let lines := linesOf billText
  let st := lines.foldl rentLineStep ⟨jint 0, jint 0, [], none, none, none⟩
  { st with
    gracePeriod := lines.foldl graceStep none
    noticeDays := lines.foldl noticeStep none }

def MIN_NOTICE_DAYS : Nat := 30

def MAX_LATE_FEE_PERCENT : JRat := J 5 100

def MIN_GRACE_PERIOD_DAYS : Nat := 3

/-- The questionable-fee flags, in charge order (`!ref` never holds for
keys pushed by `FEE_PATTERNS`, but the guard is kept). -/
def rentFeeItems (E : RentExtraction) : List FlaggedItem :=
  E.charges.filterMap fun ch =>
    match feeLookup ch.key with
    | none => none
    | some maxR =>
      if jltB maxR ch.amount then
        some ⟨upperS ch.key, ch.amount, maxR, jround2 (jsub ch.amount maxR),
          if jeqB maxR (jint 0) then jint 90 else jint 75⟩
      else none

/-- The notice-period flags. -/
def rentNoticeItems (E : RentExtraction) : List FlaggedItem :=
  match E.rentIncrease, E.noticeDays with
  | some pc, some nd =>
    if nd < MIN_NOTICE_DAYS then
      [⟨"NOTICE_VIOLATION", jsub pc.2 pc.1, jint 0, jsub pc.2 pc.1, jint 92⟩]
    else []
  | none, some nd =>
    if nd < MIN_NOTICE_DAYS && jltB (jint 0) E.baseRent then
      [⟨"NOTICE_VIOLATION", jint 0, jint 0, jint 0, jint 90⟩]
    else []
  | _, none => []

/-- The rounded legal late-fee maximum (`Math.round(baseRent*0.05*100)/100`). -/
def rentMaxLate (E : RentExtraction) : JRat := jround2 (jmul E.baseRent MAX_LATE_FEE_PERCENT)

/-- The late-fee block's flags (cap flag, then the grace flag), guarded by
`lateFee > 0 && baseRent > 0`. -/
def rentLateItems (E : RentExtraction) : List FlaggedItem :=
  if jltB (jint 0) E.lateFee && jltB (jint 0) E.baseRent then
    (if jltB (rentMaxLate E) E.lateFee then
      [⟨"LATE_FEE", E.lateFee, rentMaxLate E, jround2 (jsub E.lateFee (rentMaxLate E)), jint 88⟩]
    else [])
    ++ (match E.gracePeriod with
      | some g => if g < MIN_GRACE_PERIOD_DAYS then
          [⟨"NO_GRACE", E.lateFee, jint 0, E.lateFee, jint 85⟩]
        else []
      | none => [])
  else []

/-- All rent flags, in push order. -/
def rentItems (E : RentExtraction) : List FlaggedItem :=
  rentFeeItems E ++ rentNoticeItems E ++ rentLateItems E

/-- `totalBilled` after the fee loop (starts at `baseRent`, adds each
charge with a table entry). -/
def rentBilledAfterFees (E : RentExtraction) : JRat :=
  E.charges.foldl
    (fun s ch => match feeLookup ch.key with
      | some _ => jadd s ch.amount
      | none => s) E.baseRent

/-- `totalFair` after the fee loop (starts at `baseRent`, adds each
charge's ceiling whether or not it is flagged). -/
def rentFairAfterFees (E : RentExtraction) : JRat :=
  E.charges.foldl
    (fun s ch => match feeLookup ch.key with
      | some m => jadd s m
      | none => s) E.baseRent

/-- `totalBilled` after the notice block (adds the increase only when the
first notice branch fired). -/
def rentBilledAfterNotice (E : RentExtraction) : JRat :=
  match E.rentIncrease, E.noticeDays with
  | some pc, some nd =>
    if nd < MIN_NOTICE_DAYS then jadd (rentBilledAfterFees E) (jsub pc.2 pc.1)
    else rentBilledAfterFees E
  | _, _ => rentBilledAfterFees E

/-- `analyzeRentBill` of the source. -/
def analyzeRentBill (billText : String) : UnifiedAnalysisResult :=
  let E := extractRentCharges billText
  let items := rentItems E
  let lateCond := jltB (jint 0) E.lateFee && jltB (jint 0) E.baseRent
  let totalBilled := if lateCond then jadd (rentBilledAfterNotice E) E.lateFee
    else rentBilledAfterNotice E
  let totalFair :=
    if lateCond then
      if jltB (rentMaxLate E) E.lateFee then jadd (rentFairAfterFees E) (rentMaxLate E)
      else jadd (rentFairAfterFees E) E.lateFee
    else rentFairAfterFees E
  let potentialSavings := jsum (items.map (·.savings))
  ⟨"rent", "Hidden Fees, CAM Overcharges & Notice Violations", items,
    jround2 totalBilled, jround2 totalFair, jround2 potentialSavings⟩

/-! ### C8: the rent late-fee rules (corrected) -/

/-- A true JS `==` against a general literal pins down the rational. -/
theorem toRat_eq_of_jeqB_J {x : JRat} {n : Int} {d : Nat} (hd : d ≠ 0)
    (h : jeqB x (J n d) = true) : x.toRat = (n : ℚ) / (d : ℚ) := by
  have hx : x.IsFin := by
    simp only [jeqB, Bool.and_eq_true, bne_iff_ne, ne_eq] at h
    exact h.1.1
  have hJ : (J n d).IsFin := by simpa [JRat.IsFin] using hd
  exact ((jeqB_iff hx hJ).mp h).trans (toRat_J n d)

/-- C8 counterexample, two independent divergences from the claim at
concrete inputs.  (1) A statement with a late fee of 100.00 and a known
grace period of 0 days but no detected base rent produces no NO_GRACE
item (the code's whole late-fee block is guarded by `baseRent > 0`, which
the claim does not mention).  (2) With base rent 1850.10 and late fee
92.51, the late fee exceeds `baseRent · 0.05 = 92.505`, so the claim
demands a LATE_FEE flag, but the code compares against the rounded cap
`round2(92.505) = 92.51` and emits nothing. -/
theorem C8_counterexample :
    (extractRentCharges "Late Fee $100.00\nGrace Period: None").lateFee.toRat = 100
    ∧ (extractRentCharges "Late Fee $100.00\nGrace Period: None").gracePeriod = some 0
    ∧ (analyzeRentBill "Late Fee $100.00\nGrace Period: None").lineItems = []
    ∧ (extractRentCharges "Base Rent $1,850.10\nLate Fee $92.51").baseRent.toRat = 18501 / 10
    ∧ (extractRentCharges "Base Rent $1,850.10\nLate Fee $92.51").lateFee.toRat = 9251 / 100
    ∧ ((18501 : ℚ) / 10) * (5 / 100) < 9251 / 100
    ∧ (analyzeRentBill "Base Rent $1,850.10\nLate Fee $92.51").lineItems = [] := by
  refine ⟨?_, by decide, by decide, ?_, ?_, by norm_num, by decide⟩
  · have h := toRat_eq_of_jeqB (n := 100)
      (x := (extractRentCharges "Late Fee $100.00\nGrace Period: None").lateFee) (by decide)
    simpa using h
  · have h := toRat_eq_of_jeqB_J (n := 18501) (d := 10)
      (x := (extractRentCharges "Base Rent $1,850.10\nLate Fee $92.51").baseRent)
      (by norm_num) (by decide)
    simpa using h
  · have h := toRat_eq_of_jeqB_J (n := 9251) (d := 100)
      (x := (extractRentCharges "Base Rent $1,850.10\nLate Fee $92.51").lateFee)
      (by norm_num) (by decide)
    simpa using h

/-- No questionable-fee flag carries the code `LATE_FEE`. -/
theorem rentFeeItems_code {E : RentExtraction} {it : FlaggedItem}
    (h : it ∈ rentFeeItems E) : it.code ≠ "LATE_FEE" := by
  unfold rentFeeItems at h
  rw [List.mem_filterMap] at h
  obtain ⟨ch, -, hch⟩ := h
  rcases hfl : feeLookup ch.key with _ | maxR
  · rw [hfl] at hch
    exact Option.noConfusion hch
  · rw [hfl] at hch
    have hmem : upperS ch.key ≠ "LATE_FEE" := by
      have hkey : ∀ e ∈ QUESTIONABLE_FEES, upperS e.1 ≠ "LATE_FEE" := by decide
      unfold feeLookup at hfl
      rcases hfind : QUESTIONABLE_FEES.find? (fun e => e.1 == ch.key) with _ | e
      · rw [hfind] at hfl
        exact absurd hfl (by simp)
      · have he := List.find?_some hfind
        have heq : e.1 = ch.key := by simpa using he
        rw [← heq]
        exact hkey e (List.mem_of_find?_eq_some hfind)
    have hch2 : (if jltB maxR ch.amount then
        some (⟨upperS ch.key, ch.amount, maxR, jround2 (jsub ch.amount maxR),
          if jeqB maxR (jint 0) then jint 90 else jint 75⟩ : FlaggedItem)
      else none) = some it := hch
    split at hch2
    · rw [← Option.some_inj.mp hch2]
      exact hmem
    · exact Option.noConfusion hch2

/-- No notice flag carries the code `LATE_FEE`. -/
theorem rentNoticeItems_code {E : RentExtraction} {it : FlaggedItem}
    (h : it ∈ rentNoticeItems E) : it.code ≠ "LATE_FEE" := by
  unfold rentNoticeItems at h
  rcases E.rentIncrease with _ | pc <;> rcases E.noticeDays with _ | nd <;>
    simp_all <;> split at h <;> simp_all

/-- Decomposition of the rent flag list. -/
theorem mem_rentItems_iff {E : RentExtraction} {it : FlaggedItem} :
    it ∈ rentItems E
      ↔ it ∈ rentFeeItems E ∨ it ∈ rentNoticeItems E ∨ it ∈ rentLateItems E := by
  unfold rentItems
  simp [List.mem_append, or_assoc]

/-- C8 amended: when a late fee and a positive base rent were both
detected, (1) a known grace period under 3 days yields the separate
NO_GRACE item (full late fee disputed, confidence 85), additively; (2) a
LATE_FEE cap flag exists iff the late fee exceeds the rounded cap
`round2(baseRent · 0.05)`; (3) the cap flag then carries
`savings = round2(lateFee - round2(baseRent·0.05))` and confidence 88;
and (4) a late fee at or under the rounded cap counts in full toward
`totalFairPrice`. -/
theorem C8_rent_lateFee_amended (t : String)
    (h1 : jltB (jint 0) (extractRentCharges t).lateFee = true)
    (h2 : jltB (jint 0) (extractRentCharges t).baseRent = true) :
    (∀ g, (extractRentCharges t).gracePeriod = some g → g < 3 →
      (⟨"NO_GRACE", (extractRentCharges t).lateFee, jint 0,
        (extractRentCharges t).lateFee, jint 85⟩ : FlaggedItem)
        ∈ (analyzeRentBill t).lineItems)
    ∧ ((∃ it ∈ (analyzeRentBill t).lineItems, it.code = "LATE_FEE")
        ↔ jltB (rentMaxLate (extractRentCharges t)) (extractRentCharges t).lateFee = true)
    ∧ (jltB (rentMaxLate (extractRentCharges t)) (extractRentCharges t).lateFee = true →
      (⟨"LATE_FEE", (extractRentCharges t).lateFee, rentMaxLate (extractRentCharges t),
        jround2 (jsub (extractRentCharges t).lateFee (rentMaxLate (extractRentCharges t))),
        jint 88⟩ : FlaggedItem) ∈ (analyzeRentBill t).lineItems)
    ∧ (jltB (rentMaxLate (extractRentCharges t)) (extractRentCharges t).lateFee = false →
      (analyzeRentBill t).totalFairPrice
        = jround2 (jadd (rentFairAfterFees (extractRentCharges t))
            (extractRentCharges t).lateFee)) := by
  have hitems : (analyzeRentBill t).lineItems = rentItems (extractRentCharges t) := rfl
  have hcond : (jltB (jint 0) (extractRentCharges t).lateFee
      && jltB (jint 0) (extractRentCharges t).baseRent) = true := by rw [h1, h2]; rfl
  have hlate : ∀ it : FlaggedItem, it ∈ rentLateItems (extractRentCharges t) →
      it ∈ (analyzeRentBill t).lineItems := by
    intro it h
    rw [hitems, mem_rentItems_iff]
    exact Or.inr (Or.inr h)
  have hlateItems : rentLateItems (extractRentCharges t)
      = (if jltB (rentMaxLate (extractRentCharges t)) (extractRentCharges t).lateFee then
          [⟨"LATE_FEE", (extractRentCharges t).lateFee, rentMaxLate (extractRentCharges t),
            jround2 (jsub (extractRentCharges t).lateFee (rentMaxLate (extractRentCharges t))),
            jint 88⟩]
        else [])
        ++ (match (extractRentCharges t).gracePeriod with
          | some g => if g < MIN_GRACE_PERIOD_DAYS then
              [⟨"NO_GRACE", (extractRentCharges t).lateFee, jint 0,
                (extractRentCharges t).lateFee, jint 85⟩]
            else []
          | none => []) := by
    unfold rentLateItems
    rw [hcond, if_pos rfl]
  refine ⟨?_, ?_, ?_, ?_⟩
  · intro g hg hg3
    apply hlate
    rw [hlateItems, hg, List.mem_append]
    right
    simp [MIN_GRACE_PERIOD_DAYS, hg3]
  · constructor
    · rintro ⟨it, hmem, hcode⟩
      rw [hitems, mem_rentItems_iff] at hmem
      rcases hmem with hmem | hmem | hmem
      · exact absurd hcode (rentFeeItems_code hmem)
      · exact absurd hcode (rentNoticeItems_code hmem)
      · rw [hlateItems, List.mem_append] at hmem
        rcases hmem with hmem | hmem
        · rcases hflag : jltB (rentMaxLate (extractRentCharges t))
              (extractRentCharges t).lateFee
          · rw [hflag] at hmem
            exact absurd (show it ∈ ([] : List FlaggedItem) from hmem) (List.not_mem_nil it)
          · rfl
        · rcases hgp : (extractRentCharges t).gracePeriod with _ | g
          · rw [hgp] at hmem
            exact absurd (show it ∈ ([] : List FlaggedItem) from hmem) (List.not_mem_nil it)
          · rw [hgp] at hmem
            have hmem2 : it ∈ (if g < MIN_GRACE_PERIOD_DAYS then
                [(⟨"NO_GRACE", (extractRentCharges t).lateFee, jint 0,
                  (extractRentCharges t).lateFee, jint 85⟩ : FlaggedItem)]
              else []) := hmem
            by_cases hg3 : g < MIN_GRACE_PERIOD_DAYS
            · rw [if_pos hg3] at hmem2
              rw [List.mem_singleton] at hmem2
              rw [hmem2] at hcode
              exact absurd (show ("NO_GRACE" : String) = "LATE_FEE" from hcode) (by decide)
            · rw [if_neg hg3] at hmem2
              exact absurd hmem2 (List.not_mem_nil it)
    · intro hflag
      refine ⟨⟨"LATE_FEE", (extractRentCharges t).lateFee, rentMaxLate (extractRentCharges t),
        jround2 (jsub (extractRentCharges t).lateFee (rentMaxLate (extractRentCharges t))),
        jint 88⟩, ?_, rfl⟩
      apply hlate
      rw [hlateItems, hflag, List.mem_append]
      left
      simp
  · intro hflag
    apply hlate
    rw [hlateItems, hflag, List.mem_append]
    left
    simp
  · intro hflag
    show jround2 (if jltB (jint 0) (extractRentCharges t).lateFee
        && jltB (jint 0) (extractRentCharges t).baseRent then
          if jltB (rentMaxLate (extractRentCharges t)) (extractRentCharges t).lateFee then
            jadd (rentFairAfterFees (extractRentCharges t)) (rentMaxLate (extractRentCharges t))
          else jadd (rentFairAfterFees (extractRentCharges t)) (extractRentCharges t).lateFee
        else rentFairAfterFees (extractRentCharges t)) = _
    rw [hcond, if_pos rfl, hflag]
    simp

/-- C8 witness: base rent 1000.00, late fee 100.00 (over the 50.00 cap)
and an explicit "Grace Period: None" produce both the LATE_FEE flag
(savings 50.00, confidence 88) and the additional NO_GRACE flag (savings
100.00, confidence 85). -/
theorem C8_rent_lateFee_amended_witness :
    (⟨"NO_GRACE", (extractRentCharges "Base Rent $1,000.00\nLate Fee $100.00\nGrace Period: None").lateFee,
      jint 0, (extractRentCharges "Base Rent $1,000.00\nLate Fee $100.00\nGrace Period: None").lateFee,
      jint 85⟩ : FlaggedItem)
      ∈ (analyzeRentBill "Base Rent $1,000.00\nLate Fee $100.00\nGrace Period: None").lineItems
    ∧ (⟨"LATE_FEE",
        (extractRentCharges "Base Rent $1,000.00\nLate Fee $100.00\nGrace Period: None").lateFee,
        rentMaxLate (extractRentCharges "Base Rent $1,000.00\nLate Fee $100.00\nGrace Period: None"),
        jround2 (jsub (extractRentCharges "Base Rent $1,000.00\nLate Fee $100.00\nGrace Period: None").lateFee
          (rentMaxLate (extractRentCharges "Base Rent $1,000.00\nLate Fee $100.00\nGrace Period: None"))),
        jint 88⟩ : FlaggedItem)
      ∈ (analyzeRentBill "Base Rent $1,000.00\nLate Fee $100.00\nGrace Period: None").lineItems := by
  have h := C8_rent_lateFee_amended "Base Rent $1,000.00\nLate Fee $100.00\nGrace Period: None"
    (by decide) (by decide)
  exact ⟨h.1 0 (by decide) (by decide), h.2.2.1 (by decide)⟩

/-! ### Auto-insurance analyzer (`src/lib/services/auto-insurance-analyzer.ts`) -/

/-- `STATE_AVG_RATES` (descriptions omitted). -/
def STATE_AVG_RATES : List (String × JRat) := [
  ("bodily_injury", J 29500 100), ("property_damage", J 15500 100),
  ("collision", J 34000 100), ("comprehensive", J 13500 100),
  ("uninsured", J 7200 100), ("medical_payments", J 4500 100),
  ("pip", J 18000 100), ("rental", J 2800 100), ("roadside", J 1800 100)]

def avgLookup (key : String) : Option JRat :=
  (STATE_AVG_RATES.find? (fun e => e.1 == key)).map (·.2)

/-- `COVERAGE_PATTERNS`, in order; the first matching pattern wins and the
loop `break`s whether or not the amounts check succeeds. -/
def COVERAGE_PATTERNS : List (List (List Tok) × String) := [
  ([[L "bodily", Tok.ws1, L "injury"]], "bodily_injury"),
  ([[L "property", Tok.ws1, L "damage"]], "property_damage"),
  ([[L "collision"]], "collision"),
  ([[L "comprehensive"]], "comprehensive"),
  ([[L "uninsured"], [L "underinsured"]], "uninsured"),
  ([[L "medical", Tok.ws1, L "pay"]], "medical_payments"),
  ([[L "personal", Tok.ws1, L "injury"], [L "pip"]], "pip"),
  ([[L "rental", Tok.ws1, L "reimburse"]], "rental"),
  ([[L "roadside"]], "roadside")]

/-- An extracted coverage line (`description`/`rawLine` omitted). -/
structure ExtractedPremium where
  key : String
  previousPremium : JRat
  newPremium : JRat
deriving DecidableEq

/-- One line of `extractPremiums`: the first two dollar amounts, kept only
when both parse and the new premium is higher (the JS guard
`!isNaN(prev) && !isNaN(curr) && curr > prev` is exactly `jltB prev curr`). -/
def premiumOfLine (line : List Char) : Option ExtractedPremium :=
  match COVERAGE_PATTERNS.find? (fun cp => testCI cp.1 line) with
  | none => none
  | some cp =>
    match dollarAmountsOf line with
    | p :: c :: _ => if jltB p c then some ⟨cp.2, p, c⟩ else none
    | _ => none

/-- `extractPremiums` of the source. -/
def extractPremiums (billText : String) : List ExtractedPremium :=
  (linesOf billText).filterMap premiumOfLine

def HIKE_THRESHOLD : JRat := J 115 100

/-- The benchmark for one coverage (`ref?.avgPremium || p.previousPremium`;
no table value is falsy, so `||` is the missing-key fallback). -/
def autoBenchmark (p : ExtractedPremium) : JRat :=
  match avgLookup p.key with
  | some r => r
  | none => p.previousPremium

/-- The item the auto analyzer emits for one extracted premium, if any. -/
def autoFlagOf (p : ExtractedPremium) : Option FlaggedItem :=
  if jltB (jmul (autoBenchmark p) HIKE_THRESHOLD) p.newPremium then
    some ⟨upperS p.key, p.newPremium, autoBenchmark p,
      jround2 (jsub p.newPremium (autoBenchmark p)),
      jmin (jint 95) (jround0 (jmul (jdiv (jsub p.newPremium (autoBenchmark p))
        (autoBenchmark p)) (jint 100)))⟩
  else none

/-- `analyzeAutoInsurance` of the source. -/
def analyzeAutoInsurance (billText : String) : UnifiedAnalysisResult :=
  let premiums := extractPremiums billText
  let flaggedItems := premiums.filterMap autoFlagOf
  let totalBilled := jsum (premiums.map (·.newPremium))
  let totalFair := jsum (premiums.map autoBenchmark)
  let potentialSavings := jsum (flaggedItems.map (·.savings))
  ⟨"auto", "Premium Hike Re-evaluation", flaggedItems,
    jround2 totalBilled, jround2 totalFair, jround2 potentialSavings⟩

/-! ### Category router (`src/lib/services/analyze-bill.ts`) and C2 -/

/-- `analyzeByCategory` of the source; the `category` is a string so that
values outside the four tags (the TS `"unknown" as Category` cast) are
expressible, and `throw` is the `Except.error` branch. -/
def analyzeByCategory (billText : String) (category : String) :
    Except String UnifiedAnalysisResult :=
  if category = "medical" then
    let result := analyzeBillText billText
    .ok ⟨"medical", "Medical Bill Overcharge", result.lineItems,
      result.totalBilled, result.totalFairPrice, result.potentialSavings⟩
  else if category = "auto" then .ok (analyzeAutoInsurance billText)
  else if category = "rent" then .ok (analyzeRentBill billText)
  else if category = "utility" then .ok (analyzeUtilityBill billText)
  else .error ("Unknown category: " ++ category)

/-- C2.  The router returns each category's analyzer result without
throwing (the medical result wrapped with category `medical` and dispute
type `Medical Bill Overcharge`), and errors on every other category value
instead of returning a default result. -/
theorem C2_analyzeByCategory (billText category : String) :
    (category = "medical" → analyzeByCategory billText category
        = .ok ⟨"medical", "Medical Bill Overcharge", (analyzeBillText billText).lineItems,
            (analyzeBillText billText).totalBilled, (analyzeBillText billText).totalFairPrice,
            (analyzeBillText billText).potentialSavings⟩)
    ∧ (category = "auto" →
        analyzeByCategory billText category = .ok (analyzeAutoInsurance billText))
    ∧ (category = "rent" →
        analyzeByCategory billText category = .ok (analyzeRentBill billText))
    ∧ (category = "utility" →
        analyzeByCategory billText category = .ok (analyzeUtilityBill billText))
    ∧ (category ≠ "medical" → category ≠ "auto" → category ≠ "rent" → category ≠ "utility" →
        analyzeByCategory billText category = .error ("Unknown category: " ++ category)) := by
  refine ⟨fun h => ?_, fun h => ?_, fun h => ?_, fun h => ?_, fun h1 h2 h3 h4 => ?_⟩
  · subst h; rfl
  · subst h; rfl
  · subst h; rfl
  · subst h; rfl
  · unfold analyzeByCategory
    rw [if_neg h1, if_neg h2, if_neg h3, if_neg h4]

/-- C2 witness: the unknown tag errors, the medical tag wraps. -/
theorem C2_analyzeByCategory_witness :
    analyzeByCategory "" "unknown" = .error "Unknown category: unknown"
      ∧ analyzeByCategory "" "medical"
          = .ok ⟨"medical", "Medical Bill Overcharge", (analyzeBillText "").lineItems,
              (analyzeBillText "").totalBilled, (analyzeBillText "").totalFairPrice,
              (analyzeBillText "").potentialSavings⟩ := by
  constructor
  · have h := (C2_analyzeByCategory "" "unknown").2.2.2.2
      (by decide) (by decide) (by decide) (by decide)
    simpa using h
  · exact (C2_analyzeByCategory "" "medical").1 rfl

/-! ### C3: the savings invariant across the four analyzers

The only genuinely subtle case is the utility EST_OVER item, whose fair
price divides by the average estimated usage; the division is sound
because every parsed usage is a nonnegative digit string, so a true
over-estimation guard forces the average to be finite and positive. -/

/-- A finite product has finite factors. -/
theorem isFin_of_jmul_left {a b : JRat} (h : (jmul a b).IsFin) : a.IsFin := by
  intro h0
  exact h (by rw [jmul_den, h0, Nat.zero_mul])

/-- A stripped number token never has a negative numerator. -/
theorem stripTokVal_num_nonneg (a b : List Char) : 0 ≤ (stripTokVal a b).num := by
  unfold stripTokVal
  split
  · exact le_refl 0
  · show (0 : ℤ) ≤ (digitsVal a : ℤ) * 10 ^ b.length + (digitsVal b : ℤ)
    positivity

/-- Any value produced by the `[\d,]+\.?\d*` token scanner has a
nonnegative numerator. -/
theorem utilAmountTok_num_nonneg {s : List Char} {v : JRat} {k : Nat}
    (h : utilAmountTok s = some (v, k)) : 0 ≤ v.num := by
  unfold utilAmountTok at h
  repeat' split at h
  all_goals
    first
      | (injection h with h4
         injection h4 with h5 h6
         rw [← h5]
         exact stripTokVal_num_nonneg _ _)
      | exact Option.noConfusion h

/-- Positional scans only emit values the token function produced. -/
theorem scanPosF_forall {α : Type} {f : List Char → Option (α × Nat)} {P : α → Prop}
    (hf : ∀ s v k, f s = some (v, k) → P v) :
    ∀ (fuel : Nat) (s : List Char), ∀ v ∈ scanPosF f fuel s, P v := by
  intro fuel
  induction fuel with
  | zero => intro s v hv; exact absurd hv (by simp [scanPosF])
  | succ n ih =>
    intro s v hv
    cases s with
    | nil => exact absurd hv (by simp [scanPosF])
    | cons c cs =>
      rcases hfc : f (c :: cs) with _ | ⟨w, k⟩
      · simp only [scanPosF, hfc] at hv
        exact ih cs v hv
      · simp only [scanPosF, hfc] at hv
        rcases List.mem_cons.mp hv with rfl | h2
        · exact hf _ _ _ hfc
        · exact ih _ v h2

theorem utilAmountsOf_num_nonneg {line : List Char} {v : JRat}
    (h : v ∈ utilAmountsOf line) : 0 ≤ v.num :=
  scanPosF_forall (fun _ _ _ hf => utilAmountTok_num_nonneg hf) _ _ v h

/-- One extraction step preserves "all usages are nonnegative". -/
theorem utilLineStep_usage {st : UtilExtraction} {l : List Char}
    (h : ∀ p ∈ st.periods, 0 ≤ p.usage.num) :
    ∀ p ∈ (utilLineStep st l).periods, 0 ≤ p.usage.num := by
  intro p hp
  unfold utilLineStep at hp
  by_cases h1 : testCI backBillPat l = true
  · rw [if_pos h1] at hp
    rcases hd : findDollar l with _ | w <;> rw [hd] at hp <;> exact h p hp
  · rw [if_neg h1] at hp
    by_cases h2 : testCI serviceFeePat l = true
    · rw [if_pos h2] at hp
      rcases hd : findDollar l with _ | w <;> rw [hd] at hp <;> exact h p hp
    · rw [if_neg h2] at hp
      by_cases h3 : hasMonthYear l = true
      · rw [if_pos h3] at hp
        rcases ha : utilAmountsOf l with _ | ⟨u, rest⟩
        · rw [ha] at hp
          exact h p hp
        · rcases rest with _ | ⟨r, rest2⟩
          · rw [ha] at hp
            exact h p hp
          · rw [ha] at hp
            have hp2 : p ∈ st.periods ++
                [(⟨u, r, (match findDollar l with | some w => w | none => jmul u r),
                  testCI estPat l && !(testCI actualPat l)⟩ : ExtractedBillingPeriod)] := hp
            rcases List.mem_append.mp hp2 with h4 | h4
            · exact h p h4
            · rw [List.mem_singleton.mp h4]
              exact utilAmountsOf_num_nonneg (by rw [ha]; exact List.mem_cons_self _ _)
      · rw [if_neg h3] at hp
        exact h p hp

theorem foldl_utilLineStep_usage (lines : List (List Char)) :
    ∀ st : UtilExtraction, (∀ p ∈ st.periods, 0 ≤ p.usage.num) →
      ∀ p ∈ (lines.foldl utilLineStep st).periods, 0 ≤ p.usage.num := by
  induction lines with
  | nil => intro st h; exact h
  | cons l ls ih => intro st h; exact ih (utilLineStep st l) (utilLineStep_usage h)

/-- Every extracted billing period's usage is nonnegative. -/
theorem extract_usage_nonneg (t : String) :
    ∀ p ∈ (extractBillingPeriods t).periods, 0 ≤ p.usage.num :=
  foldl_utilLineStep_usage (linesOf t) ⟨[], jint 0, jint 0⟩
    (fun p hp => absurd hp (List.not_mem_nil p))

theorem jadd_num_nonneg {a b : JRat} (ha : 0 ≤ a.num) (hb : 0 ≤ b.num) :
    0 ≤ (jadd a b).num := by
  show (0 : ℤ) ≤ a.num * b.den + b.num * a.den
  have h1 : (0 : ℤ) ≤ (b.den : ℤ) := Int.natCast_nonneg _
  have h2 : (0 : ℤ) ≤ (a.den : ℤ) := Int.natCast_nonneg _
  exact add_nonneg (mul_nonneg ha h1) (mul_nonneg hb h2)

theorem foldl_jadd_num_nonneg (l : List JRat) : ∀ acc : JRat, 0 ≤ acc.num →
    (∀ x ∈ l, 0 ≤ x.num) → 0 ≤ (l.foldl jadd acc).num := by
  induction l with
  | nil => intro acc ha _; exact ha
  | cons a l ih =>
    intro acc hacc hall
    exact ih (jadd acc a) (jadd_num_nonneg hacc (hall a (List.mem_cons_self _ _)))
      (fun x hx => hall x (List.mem_cons_of_mem _ hx))

theorem jsum_num_nonneg {l : List JRat} (h : ∀ x ∈ l, 0 ≤ x.num) : 0 ≤ (jsum l).num :=
  foldl_jadd_num_nonneg l (jint 0) (by decide) h

theorem jdiv_jintNat_num_nonneg {a : JRat} (n : ℕ) (ha : 0 ≤ a.num) :
    0 ≤ (jdiv a (jint (n : ℤ))).num := by
  unfold jdiv jint
  rw [if_neg (by simp)]
  show (0 : ℤ) ≤ a.num * ((1 : ℕ) : ℤ) * Int.sign (n : ℤ)
  have hs : 0 ≤ Int.sign (n : ℤ) := by
    rcases Nat.eq_zero_or_pos n with rfl | hn
    · simp
    · rw [Int.sign_eq_one_of_pos (by exact_mod_cast hn)]
      norm_num
  exact mul_nonneg (mul_nonneg ha (by norm_num)) hs

theorem toRat_nonneg {x : JRat} (h : 0 ≤ x.num) : 0 ≤ x.toRat :=
  div_nonneg (by exact_mod_cast h) (Nat.cast_nonneg _)

theorem utilAvgEstUsage_num_nonneg {E : UtilExtraction}
    (h : ∀ p ∈ E.periods, 0 ≤ p.usage.num) : 0 ≤ (utilAvgEstUsage E).num := by
  unfold utilAvgEstUsage
  apply jdiv_jintNat_num_nonneg
  apply jsum_num_nonneg
  intro x hx
  obtain ⟨p, hp, rfl⟩ := List.mem_map.mp hx
  exact h p (List.mem_of_mem_filter hp)

theorem utilAvgActualUsage_num_nonneg {E : UtilExtraction}
    (h : ∀ p ∈ E.periods, 0 ≤ p.usage.num) : 0 ≤ (utilAvgActualUsage E).num := by
  unfold utilAvgActualUsage
  split
  · apply jdiv_jintNat_num_nonneg
    apply jsum_num_nonneg
    intro x hx
    obtain ⟨p, hp, rfl⟩ := List.mem_map.mp hx
    exact h p (List.mem_of_mem_filter hp)
  · exact utilAvgEstUsage_num_nonneg h

/-- Every medical flag's savings is the rounded difference. -/
theorem medical_item_savings {t : String} {it : FlaggedItem}
    (h : it ∈ (analyzeBillText t).lineItems) :
    it.savings.toRat = round2q (it.billedAmount.toRat - it.fairPrice.toRat) := by
  rw [analyzeBillText_lineItems] at h
  obtain ⟨c, -, hc⟩ := mem_detectOvercharges.mp h
  obtain ⟨f, hf, hlt, rfl⟩ := flagCharge_eq_some.mp hc
  have hbfin : c.billedAmount.IsFin := (jltB_true_fin hlt).2
  have hffin : f.IsFin := fairLookup_fin hf
  show (jround2 (jsub c.billedAmount f)).toRat = round2q (c.billedAmount.toRat - f.toRat)
  rw [toRat_jround2, toRat_jsub hbfin hffin]

/-- Every auto-insurance flag's savings is the rounded difference. -/
theorem auto_item_savings {t : String} {it : FlaggedItem}
    (h : it ∈ (analyzeAutoInsurance t).lineItems) :
    it.savings.toRat = round2q (it.billedAmount.toRat - it.fairPrice.toRat) := by
  have h2 : it ∈ (extractPremiums t).filterMap autoFlagOf := h
  obtain ⟨p, -, hp⟩ := List.mem_filterMap.mp h2
  unfold autoFlagOf at hp
  by_cases hc : jltB (jmul (autoBenchmark p) HIKE_THRESHOLD) p.newPremium = true
  · rw [if_pos hc] at hp
    obtain rfl := Option.some_inj.mp hp
    have hnfin : p.newPremium.IsFin := (jltB_true_fin hc).2
    have hbfin : (autoBenchmark p).IsFin := isFin_of_jmul_left (jltB_true_fin hc).1
    show (jround2 (jsub p.newPremium (autoBenchmark p))).toRat
      = round2q (p.newPremium.toRat - (autoBenchmark p).toRat)
    rw [toRat_jround2, toRat_jsub hnfin hbfin]
  · rw [if_neg hc] at hp
    exact Option.noConfusion hp

/-- Every questionable-fee flag's savings is the rounded difference. -/
theorem rentFeeItems_savings {E : RentExtraction} {it : FlaggedItem}
    (h : it ∈ rentFeeItems E) :
    it.savings.toRat = round2q (it.billedAmount.toRat - it.fairPrice.toRat) := by
  obtain ⟨ch, -, hch⟩ := List.mem_filterMap.mp h
  rcases hfl : feeLookup ch.key with _ | maxR
  · rw [hfl] at hch
    exact Option.noConfusion hch
  · rw [hfl] at hch
    have hch2 : (if jltB maxR ch.amount then
        some (⟨upperS ch.key, ch.amount, maxR, jround2 (jsub ch.amount maxR),
          if jeqB maxR (jint 0) then jint 90 else jint 75⟩ : FlaggedItem)
      else none) = some it := hch
    by_cases hlt : jltB maxR ch.amount = true
    · rw [if_pos hlt] at hch2
      obtain rfl := Option.some_inj.mp hch2
      have hfin := jltB_true_fin hlt
      show (jround2 (jsub ch.amount maxR)).toRat = round2q (ch.amount.toRat - maxR.toRat)
      rw [toRat_jround2, toRat_jsub hfin.2 hfin.1]
    · rw [if_neg hlt] at hch2
      exact Option.noConfusion hch2

/-- Every notice flag disputes with an explicitly zero fair price and the
full billed amount as savings. -/
theorem rentNoticeItems_savings {E : RentExtraction} {it : FlaggedItem}
    (h : it ∈ rentNoticeItems E) :
    it.fairPrice = jint 0 ∧ it.savings = it.billedAmount := by
  unfold rentNoticeItems at h
  rcases E.rentIncrease with _ | pc <;> rcases E.noticeDays with _ | nd <;>
    simp_all <;> split at h <;> simp_all

/-- Every late-fee-block flag is the rounded difference or a full dispute. -/
theorem rentLateItems_savings {E : RentExtraction} {it : FlaggedItem}
    (h : it ∈ rentLateItems E) :
    it.savings.toRat = round2q (it.billedAmount.toRat - it.fairPrice.toRat)
    ∨ (it.fairPrice = jint 0 ∧ it.savings = it.billedAmount) := by
  unfold rentLateItems at h
  by_cases hc : (jltB (jint 0) E.lateFee && jltB (jint 0) E.baseRent) = true
  · rw [if_pos hc] at h
    rcases List.mem_append.mp h with h2 | h2
    · by_cases hcap : jltB (rentMaxLate E) E.lateFee = true
      · rw [if_pos hcap] at h2
        obtain rfl := List.mem_singleton.mp h2
        left
        have hfin := jltB_true_fin hcap
        show (jround2 (jsub E.lateFee (rentMaxLate E))).toRat
          = round2q (E.lateFee.toRat - (rentMaxLate E).toRat)
        rw [toRat_jround2, toRat_jsub hfin.2 hfin.1]
      · rw [if_neg hcap] at h2
        exact absurd h2 (List.not_mem_nil it)
    · rcases hg : E.gracePeriod with _ | g
      · rw [hg] at h2
        exact absurd h2 (List.not_mem_nil it)
      · rw [hg] at h2
        have h3 : it ∈ (if g < MIN_GRACE_PERIOD_DAYS then
            [(⟨"NO_GRACE", E.lateFee, jint 0, E.lateFee, jint 85⟩ : FlaggedItem)]
          else []) := h2
        by_cases hlt : g < MIN_GRACE_PERIOD_DAYS
        · rw [if_pos hlt] at h3
          obtain rfl := List.mem_singleton.mp h3
          exact Or.inr ⟨rfl, rfl⟩
        · rw [if_neg hlt] at h3
          exact absurd h3 (List.not_mem_nil it)
  · rw [if_neg hc] at h
    exact absurd h (List.not_mem_nil it)

/-- Every rent flag is the rounded difference or a full dispute. -/
theorem rent_item_savings {E : RentExtraction} {it : FlaggedItem}
    (h : it ∈ rentItems E) :
    it.savings.toRat = round2q (it.billedAmount.toRat - it.fairPrice.toRat)
    ∨ (it.fairPrice = jint 0 ∧ it.savings = it.billedAmount) := by
  rcases mem_rentItems_iff.mp h with h3 | h3 | h3
  · exact Or.inl (rentFeeItems_savings h3)
  · exact Or.inr (rentNoticeItems_savings h3)
  · exact rentLateItems_savings h3

/-- Every utility flag is the rounded difference, a full dispute, or the
EST_OVER item whose fair price is itself a rounded quantity. -/
theorem utility_item_savings {E : UtilExtraction} {it : FlaggedItem}
    (husage : ∀ p ∈ E.periods, 0 ≤ p.usage.num)
    (h : it ∈ utilItems E) :
    it.savings.toRat = round2q (it.billedAmount.toRat - it.fairPrice.toRat)
    ∨ (it.fairPrice = jint 0 ∧ it.savings = it.billedAmount)
    ∨ (it.code = "EST_OVER" ∧ ∃ x : ℚ, it.fairPrice.toRat = round2q x
        ∧ it.savings.toRat = round2q (it.billedAmount.toRat - x)) := by
  unfold utilItems at h
  rcases List.mem_append.mp h with h | h
  · rcases List.mem_append.mp h with h | h
    · unfold utilBackBillItems at h
      by_cases h1 : (jltB (jint 0) E.backBillAmount
          && decide ((E.periods.filter (·.isEstimated)).length > MAX_BACK_BILL_MONTHS)) = true
      · rw [if_pos h1] at h
        rw [List.mem_singleton.mp h]
        exact Or.inr (Or.inl ⟨rfl, rfl⟩)
      · rw [if_neg h1] at h
        by_cases h2 : jltB (jint 0) E.backBillAmount = true
        · rw [if_pos h2] at h
          rw [List.mem_singleton.mp h]
          left
          show (jround2 (jmul E.backBillAmount (J 5 10))).toRat
            = round2q (E.backBillAmount.toRat - (jmul E.backBillAmount (J 5 10)).toRat)
          rw [toRat_jround2, toRat_jmul, toRat_J]
          congr 1
          push_cast
          ring
        · rw [if_neg h2] at h
          exact absurd h (List.not_mem_nil it)
    · unfold utilEstOverItems at h
      by_cases h1 : (E.periods.filter (·.isEstimated)).length > 3
      · rw [if_pos h1] at h
        by_cases h2 : jltB (jmul (utilAvgActualUsage E) (J 115 100)) (utilAvgEstUsage E) = true
        · rw [if_pos h2] at h
          rw [List.mem_singleton.mp h]
          right; right
          refine ⟨rfl, (utilEstTotal E).toRat
            * (jdiv (utilAvgActualUsage E) (utilAvgEstUsage E)).toRat, ?_, ?_⟩
          · show (jround2 (jmul (utilEstTotal E)
                (jdiv (utilAvgActualUsage E) (utilAvgEstUsage E)))).toRat = _
            rw [toRat_jround2, toRat_jmul]
          · have hfin := jltB_true_fin h2
            have hA : (utilAvgActualUsage E).IsFin := isFin_of_jmul_left hfin.1
            have hEfin : (utilAvgEstUsage E).IsFin := hfin.2
            have hAq : 0 ≤ (utilAvgActualUsage E).toRat :=
              toRat_nonneg (utilAvgActualUsage_num_nonneg husage)
            have hlt := jltB_true_toRat h2
            rw [toRat_jmul, toRat_J] at hlt
            have hEpos : 0 < (utilAvgEstUsage E).toRat :=
              lt_of_le_of_lt (mul_nonneg hAq (by positivity)) hlt
            have hEnum : 0 < (utilAvgEstUsage E).num := (toRat_pos_iff hEfin).mp hEpos
            have hR : (jdiv (utilAvgActualUsage E) (utilAvgEstUsage E)).IsFin :=
              isFin_jdiv hA hEfin hEnum.ne'
            show (jround2 (jmul (utilEstTotal E)
                (jsub (jint 1) (jdiv (utilAvgActualUsage E) (utilAvgEstUsage E))))).toRat = _
            rw [toRat_jround2, toRat_jmul, toRat_jsub (isFin_jint 1) hR, toRat_jint]
            congr 1
            push_cast
            ring
        · rw [if_neg h2] at h
          exact absurd h (List.not_mem_nil it)
      · rw [if_neg h1] at h
        exact absurd h (List.not_mem_nil it)
  · unfold utilRateItems at h
    by_cases h1 : (utilUniqueRates E).length > 1
    · rw [if_pos h1] at h
      by_cases h2 : jltB (jmul (jminList (utilUniqueRates E)) (J 11 10))
          (jmaxList (utilUniqueRates E)) = true
      · rw [if_pos h2] at h
        rw [List.mem_singleton.mp h]
        left
        have hfin := jltB_true_fin h2
        have hmin : (jminList (utilUniqueRates E)).IsFin := isFin_of_jmul_left hfin.1
        show (jround2 (jsub (jmaxList (utilUniqueRates E)) (jminList (utilUniqueRates E)))).toRat
          = round2q ((jmaxList (utilUniqueRates E)).toRat - (jminList (utilUniqueRates E)).toRat)
        rw [toRat_jround2, toRat_jsub hfin.2 hmin]
      · rw [if_neg h2] at h
        exact absurd h (List.not_mem_nil it)
    · rw [if_neg h1] at h
      exact absurd h (List.not_mem_nil it)

set_option maxRecDepth 40000 in
/-- C3 counterexample.  Four over-estimated periods (usage 2000) against
two actual periods (usage about 1000) at $5.00 each produce the EST_OVER
item `billed 20.00, fairPrice 10.01, savings 10.00`; the claim demands
`savings = round2(billed - fair) = round2(9.99) = 9.99` (the fair price
is not 0, so the claimed exception does not apply), but the code rounds
`estTotal · (1 - avgActual/avgEst)` before — not after — the already
rounded fair price is formed, giving 10.00 ≠ 9.99. -/
theorem C3_counterexample :
    (analyzeUtilityBill ("Jan 2000 estimated $5.00\nFeb 2000 estimated $5.00\n"
          ++ "Mar 2000 estimated $5.00\nApr 2000 estimated $5.00\n"
          ++ "May 1001 actual $5.00\nMay 1000 actual $5.00")).lineItems
        = [⟨"EST_OVER", J 2000000000 100000000, J 1001 100, J 1000 100, jint 78⟩]
    ∧ (J 2000000000 100000000).toRat = 20
    ∧ (J 1001 100).toRat = 1001 / 100
    ∧ (J 1000 100).toRat = 10
    ∧ ¬ ((10 : ℚ) = round2q (20 - 1001 / 100)
        ∨ ((1001 : ℚ) / 100 = 0 ∧ (10 : ℚ) = 20)) := by
  refine ⟨by decide, by norm_num [JRat.toRat, J], by norm_num [JRat.toRat, J],
    by norm_num [JRat.toRat, J], ?_⟩
  rintro (h | ⟨h, -⟩)
  · rw [show (20 : ℚ) - 1001 / 100 = ((999 : ℤ) : ℚ) / 100 by norm_num,
      round2q_div100] at h
    norm_num at h
  · norm_num at h

/-- C3 (amended).  Every flagged item of the four category analyzers
satisfies `savings = round2(billedAmount - fairPrice)`, except (a) the
full-dispute items — back-bill over the 12-month limit, notice violation,
missing grace period — where `fairPrice` is the literal 0 and
`savings = billedAmount` structurally, and (b) the utility EST_OVER item,
where the fair price is itself a rounded quantity `round2 x` and the
savings rounds `billedAmount - x` for the unrounded fair value `x`. -/
theorem C3_savings_invariant (t : String) (it : FlaggedItem)
    (h : it ∈ (analyzeBillText t).lineItems ∨ it ∈ (analyzeAutoInsurance t).lineItems
      ∨ it ∈ (analyzeRentBill t).lineItems ∨ it ∈ (analyzeUtilityBill t).lineItems) :
    it.savings.toRat = round2q (it.billedAmount.toRat - it.fairPrice.toRat)
    ∨ (it.fairPrice = jint 0 ∧ it.savings = it.billedAmount)
    ∨ (it.code = "EST_OVER" ∧ ∃ x : ℚ, it.fairPrice.toRat = round2q x
        ∧ it.savings.toRat = round2q (it.billedAmount.toRat - x)) := by
  rcases h with h | h | h | h
  · exact Or.inl (medical_item_savings h)
  · exact Or.inl (auto_item_savings h)
  · rcases rent_item_savings (show it ∈ rentItems (extractRentCharges t) from h) with h2 | h2
    · exact Or.inl h2
    · exact Or.inr (Or.inl h2)
  · exact utility_item_savings (extract_usage_nonneg t)
      (show it ∈ utilItems (extractBillingPeriods t) from h)

unseal List.merge List.mergeSort in
/-- C3 witness: the invariant instantiated at the medical item flagged on
a concrete 99285 line (savings `1740.00 = round2(2450 - 710)`). -/
theorem C3_savings_invariant_witness :
    (J 174000 100).toRat = round2q ((J 245000 100).toRat - (J 71000 100).toRat)
    ∨ (J 71000 100 = jint 0 ∧ J 174000 100 = J 245000 100)
    ∨ (("99285" : String) = "EST_OVER" ∧ ∃ x : ℚ, (J 71000 100).toRat = round2q x
        ∧ (J 174000 100).toRat = round2q ((J 245000 100).toRat - x)) :=
  C3_savings_invariant "99285 Emergency dept visit   $2,450.00"
    ⟨"99285", J 245000 100, J 71000 100, J 174000 100, J 9500 100⟩
    (Or.inl (by decide))

/-! ### Statement analyzer (`StatementAnalyzer` service) and C9

The CSV parser, merchant normalization and recurring-charge detection.
`new Date(s).getTime()` is a JS builtin; the chronological sort is
parameterized by an abstract date valuation `dateVal : List Char → ℚ`
(consistent date columns; an invalid-date NaN would make the JS
comparator inconsistent and the sort order implementation-defined). -/

/-- `splitCSVLine`'s loop: `"` toggles quoting and is dropped, a comma
outside quotes splits, anything else is appended to the current field. -/
def splitCSVAux (inQ : Bool) (cur : List Char) : List Char → List (List Char)
  | [] => [cur]
  | c :: cs =>
    if c == '"' then splitCSVAux (!inQ) cur cs
    else if c == ',' && !inQ then cur :: splitCSVAux inQ [] cs
    else splitCSVAux inQ (cur ++ [c]) cs

/-- `splitCSVLine` of the source. -/
def splitCSVLine (line : List Char) : List (List Char) := splitCSVAux false [] line

/-- JS `String.prototype.trim` (ASCII whitespace suffices here). -/
def trimS (s : List Char) : List Char :=
  ((s.dropWhile isWsC).reverse.dropWhile isWsC).reverse

/-- JS `parseFloat`: optional sign, digits, optional fraction, optional
exponent, ignoring anything after the longest numeric prefix; NaN (den 0)
when no digit is found (the `Infinity` literal does not arise from the
digit-and-punctuation fields parsed here). -/
def jsParseFloat (s : List Char) : JRat :=
  let sg : Int := match s with
    | '-' :: _ => -1
    | _ => 1
  let s1 : List Char := match s with
    | '-' :: r => r
    | '+' :: r => r
    | _ => s
  let (ds, s2) := takeDropWhile isDigitC s1
  let (fs, s3) :=
    match s2 with
    | '.' :: r => takeDropWhile isDigitC r
    | _ => ([], s2)
  if ds.isEmpty && fs.isEmpty then jnan
  else
    let m : Int := sg * (digitsVal ds * 10 ^ fs.length + digitsVal fs)
    match s3 with
    | e :: r =>
      if e == 'e' || e == 'E' then
        let eneg : Bool := match r with
          | '-' :: _ => true
          | _ => false
        let r1 : List Char := match r with
          | '-' :: rr => rr
          | '+' :: rr => rr
          | _ => r
        let (eds, _) := takeDropWhile isDigitC r1
        if eds.isEmpty then ⟨m, 10 ^ fs.length⟩
        else if eneg then ⟨m, 10 ^ fs.length * 10 ^ digitsVal eds⟩
        else ⟨m * 10 ^ digitsVal eds, 10 ^ fs.length⟩
      else ⟨m, 10 ^ fs.length⟩
    | [] => ⟨m, 10 ^ fs.length⟩

/-- JS `Math.abs` (NaN-propagating). -/
def jabs (x : JRat) : JRat := if x.den = 0 then jnan else ⟨|x.num|, x.den⟩

/-- `/date/i` on a header column. -/
def dateColPat : List (List Tok) := [[L "date"]]

/-- `/desc|merchant|name|memo|payee/i`. -/
def descColPat : List (List Tok) :=
  [[L "desc"], [L "merchant"], [L "name"], [L "memo"], [L "payee"]]

/-- `/amount|debit|charge|total/i`. -/
def amtColPat : List (List Tok) := [[L "amount"], [L "debit"], [L "charge"], [L "total"]]

/-- A parsed statement row (`category` is stored but never read by the
analysis, so it is omitted). -/
structure StatementRow where
  date : List Char
  description : List Char
  amount : JRat
deriving DecidableEq

/-- The parsed amount of one body line:
`Math.abs(parseFloat(parts[amtIdx].replace(/[$",]/g, "").trim()))`. -/
def rowAmount (amtIdx : Nat) (line : List Char) : JRat :=
  jabs (jsParseFloat (trimS (((splitCSVLine line).getD amtIdx []).filter
    (fun ch => !(ch == '$' || ch == '"' || ch == ',')))))

/-- The date field of one body line. -/
def rowDate (dateIdx : Nat) (line : List Char) : List Char :=
  trimS (((splitCSVLine line).getD dateIdx []).filter (fun ch => !(ch == '"')))

/-- The description of one body line (`parts[descIdx]` when a description
column was found, else `parts[1]`; `"Unknown"` when missing or blank). -/
def rowDesc (descIdx : Option Nat) (line : List Char) : List Char :=
  match (match descIdx with
    | some i => (splitCSVLine line).get? i
    | none => (splitCSVLine line).get? 1) with
  | none => "Unknown".data
  | some p =>
    if (trimS (p.filter (fun ch => !(ch == '"')))).isEmpty then "Unknown".data
    else trimS (p.filter (fun ch => !(ch == '"')))

/-- One body line of `parseCSV` (the loop body; `none` is `continue`). -/
def rowOfLine (dateIdx amtIdx : Nat) (descIdx : Option Nat) (line : List Char) :
    Option StatementRow :=
  if (splitCSVLine line).length ≤ max dateIdx amtIdx then none
  else if (rowAmount amtIdx line).den == 0 || (rowAmount amtIdx line).num == 0 then none
  else some ⟨rowDate dateIdx line, rowDesc descIdx line, rowAmount amtIdx line⟩

/-- `raw.trim().split("\n")`. -/
def csvLines (raw : String) : List (List Char) := splitOnC '\n' (trimS raw.data)

/-- The lowercased, trimmed, quote-stripped header columns. -/
def csvCols (raw : String) : List (List Char) :=
  (splitOnC ',' (lowerL ((csvLines raw).getD 0 []))).map
    (fun c => (trimS c).filter (fun ch => !(ch == '"')))

/-- `parseCSV` of the source (the unused `category` column is dropped). -/
def parseCSV (raw : String) : List StatementRow :=
  if (csvLines raw).length < 2 then []
  else
    match (csvCols raw).findIdx? (fun c => testCI dateColPat c),
        (csvCols raw).findIdx? (fun c => testCI amtColPat c) with
    | some dateIdx, some amtIdx =>
      ((csvLines raw).drop 1).filterMap
        (rowOfLine dateIdx amtIdx ((csvCols raw).findIdx? (fun c => testCI descColPat c)))
    | _, _ => []

/-- `.replace(/[#*\d]+$/g, "")`: strip the maximal trailing run of `#`,
`*` and digits (anchored, so at most one match). -/
def stripTrailingRef (s : List Char) : List Char :=
  (s.reverse.dropWhile (fun c => c == '#' || c == '*' || isDigitC c)).reverse

/-- `.replace(/\s{2,}/g, " ")`: each run of two or more whitespace
characters becomes one space; a single whitespace character stays
unchanged.  Fuel makes the recursion structural; each step consumes at
least one character, so `s.length` steps suffice. -/
def collapseWsF : Nat → List Char → List Char
  | 0, _ => []
  | _, [] => []
  | fuel + 1, c :: cs =>
    if isWsC c then
      match cs with
      | c2 :: _ =>
        if isWsC c2 then ' ' :: collapseWsF fuel (cs.dropWhile isWsC)
        else c :: collapseWsF fuel cs
      | [] => [c]
    else c :: collapseWsF fuel cs

def collapseWs (s : List Char) : List Char := collapseWsF s.length s

/-- The alternatives of `/(pos|ach|debit|credit|payment|autopay|recurring)\s*/gi`,
in order (the input is already lowercased; alternation picks the first
alternative that matches, so `pos` wins inside e.g. `positive`). -/
def normWords : List (List Char) :=
  ["pos".data, "ach".data, "debit".data, "credit".data, "payment".data,
   "autopay".data, "recurring".data]

/-- First alternative matching at the head, returning the rest. -/
def prefAny (ws : List (List Char)) (s : List Char) : Option (List Char) :=
  match ws with
  | [] => none
  | w :: rest =>
    match stripPref w s with
    | some r => some r
    | none => prefAny rest s

/-- The global word removal: at each position the leftmost match removes
the word and its trailing whitespace, and scanning resumes after it. -/
def stripWordsF : Nat → List Char → List Char
  | 0, _ => []
  | _, [] => []
  | fuel + 1, c :: cs =>
    match prefAny normWords (c :: cs) with
    | some r => stripWordsF fuel (r.dropWhile isWsC)
    | none => c :: stripWordsF fuel cs

def stripWords (s : List Char) : List Char := stripWordsF s.length s

def corpWords : List (List Char) := ["llc".data, "inc".data, "corp".data, "ltd".data]

/-- `.replace(/\s*(llc|inc|corp|ltd)\s*/gi, "")`: the leading `\s*` means
a match starting at a whitespace run succeeds exactly when one of the
words follows the run, consuming the run, the word and any trailing
whitespace. -/
def stripCorpF : Nat → List Char → List Char
  | 0, _ => []
  | _, [] => []
  | fuel + 1, c :: cs =>
    if isWsC c then
      match prefAny corpWords ((c :: cs).dropWhile isWsC) with
      | some r => stripCorpF fuel (r.dropWhile isWsC)
      | none => c :: stripCorpF fuel cs
    else
      match prefAny corpWords (c :: cs) with
      | some r => stripCorpF fuel (r.dropWhile isWsC)
      | none => c :: stripCorpF fuel cs

def stripCorp (s : List Char) : List Char := stripCorpF s.length s

/-- `normalizeName` of the source (lowercase, strip trailing refs,
collapse whitespace, drop payment words, drop company suffixes, trim). -/
def normalizeName (desc : List Char) : List Char :=
  trimS (stripCorp (stripWords (collapseWs (stripTrailingRef (lowerL desc)))))

/-- `Map.set`: an existing key keeps its position and appends the entry,
a new key goes to the end (JS `Map` iterates in insertion order). -/
def updateAssoc (k : List Char) (v : StatementRow) :
    List (List Char × List StatementRow) → List (List Char × List StatementRow)
  | [] => [(k, [v])]
  | (k', vs) :: rest =>
    if k' = k then (k', vs ++ [v]) :: rest else (k', vs) :: updateAssoc k v rest

/-- One grouping step of `detectRecurring` (`if (!key) continue`). -/
def groupStep (gs : List (List Char × List StatementRow)) (row : StatementRow) :
    List (List Char × List StatementRow) :=
  if (normalizeName row.description).isEmpty then gs
  else updateAssoc (normalizeName row.description) row gs

/-- The grouping loop of `detectRecurring`. -/
def statementGroups (rows : List StatementRow) : List (List Char × List StatementRow) :=
  rows.foldl groupStep []

/-- JS `Math.round(x * 10) / 10` (round to one decimal). -/
def jround1 (x : JRat) : JRat :=
  if x.den = 0 then jnan else ⟨(20 * x.num + (x.den : Int)) / (2 * (x.den : Int)), 10⟩

/-- A recurring-charge report (`description` — the raw description of the
latest entry — is presentation-only and omitted; `occurrences` keeps the
full rows). -/
structure RecurringCharge where
  normalizedName : List Char
  occurrences : List StatementRow
  avgAmount : JRat
  latestAmount : JRat
  monthOverMonthChange : Option JRat
  flagged : Bool
deriving DecidableEq

/-- `(a, b) => new Date(a.date).getTime() - new Date(b.date).getTime()`
under the abstract date valuation: keep `a` before `b` iff the difference
is not positive. -/
def dateCmpLe (dateVal : List Char → ℚ) (a b : StatementRow) : Bool :=
  decide (dateVal a.date ≤ dateVal b.date)

/-- The chronologically sorted entries of a group (the stable JS sort). -/
def groupSorted (dateVal : List Char → ℚ) (entries : List StatementRow) :
    List StatementRow :=
  entries.mergeSort (dateCmpLe dateVal)

/-- The sorted amounts of a group. -/
def groupAmounts (dateVal : List Char → ℚ) (entries : List StatementRow) : List JRat :=
  (groupSorted dateVal entries).map (·.amount)

/-- `avg = amounts.reduce(..) / amounts.length` (unrounded). -/
def groupAvg (dateVal : List Char → ℚ) (entries : List StatementRow) : JRat :=
  jdiv (jsum (groupAmounts dateVal entries)) (jint (groupAmounts dateVal entries).length)

/-- `amounts[amounts.length - 1]`. -/
def groupLatest (dateVal : List Char → ℚ) (entries : List StatementRow) : JRat :=
  (groupAmounts dateVal entries).getD ((groupAmounts dateVal entries).length - 1) jnan

/-- `amounts[amounts.length - 2]`. -/
def groupPrevious (dateVal : List Char → ℚ) (entries : List StatementRow) : JRat :=
  (groupAmounts dateVal entries).getD ((groupAmounts dateVal entries).length - 2) jnan

/-- `momChange = previous > 0 ? ((latest - previous) / previous) * 100 : null`. -/
def groupMom (dateVal : List Char → ℚ) (entries : List StatementRow) : Option JRat :=
  if jltB (jint 0) (groupPrevious dateVal entries) then
    some (jmul (jdiv (jsub (groupLatest dateVal entries) (groupPrevious dateVal entries))
      (groupPrevious dateVal entries)) (jint 100))
  else none

/-- One group's report: `null` for fewer than 2 entries (`continue`),
otherwise the chronologically sorted entries with average, latest,
previous and the >10% month-over-month flag. -/
def recurringOfGroup (dateVal : List Char → ℚ) (key : List Char)
    (entries : List StatementRow) : Option RecurringCharge :=
  if entries.length < 2 then none
  else some ⟨key, groupSorted dateVal entries, jround2 (groupAvg dateVal entries),
    groupLatest dateVal entries, (groupMom dateVal entries).map jround1,
    match groupMom dateVal entries with
    | some m => jltB (jint 10) m
    | none => false⟩

/-- The value a JS number sorts by (NaN compares as equal, which the
SortCompare abstraction turns into 0). -/
def jcmpVal (x : JRat) : Int × Nat := if x.den = 0 then (0, 1) else (x.num, x.den)

/-- A total ≤ on JS numbers agreeing with the comparator subtraction on
all finite values (on an inconsistent NaN comparator the JS sort order is
implementation-defined; this model refines it by placing NaN at 0). -/
def jleTot (a b : JRat) : Bool :=
  decide ((jcmpVal a).1 * ((jcmpVal b).2 : Int) ≤ (jcmpVal b).1 * ((jcmpVal a).2 : Int))

/-- The output comparator: flagged first, then latest amount descending. -/
def recCmpLe (a b : RecurringCharge) : Bool :=
  if a.flagged != b.flagged then a.flagged
  else jleTot b.latestAmount a.latestAmount

/-- `detectRecurring` of the source. -/
def detectRecurring (dateVal : List Char → ℚ) (rows : List StatementRow) :
    List RecurringCharge :=
  ((statementGroups rows).filterMap (fun g => recurringOfGroup dateVal g.1 g.2)).mergeSort
    recCmpLe

/-- The analysis result shape. -/
structure StatementAnalysis where
  totalTransactions : Nat
  totalSpent : JRat
  recurring : List RecurringCharge
  flaggedCount : Nat
  potentialOvercharges : JRat
deriving DecidableEq

/-- `analyzeStatement` of the source. -/
def analyzeStatement (dateVal : List Char → ℚ) (csvText : String) : StatementAnalysis :=
  let rows := parseCSV csvText
  let recurring := detectRecurring dateVal rows
  ⟨rows.length,
    jround2 (jsum (rows.map (·.amount))),
    recurring,
    (recurring.filter (·.flagged)).length,
    jround2 ((recurring.filter (·.flagged)).foldl
      (fun s r => jadd s (jmax (jint 0) (jsub r.latestAmount r.avgAmount))) (jint 0))⟩

/-! ### Support lemmas for C9 -/

theorem jabs_num_nonneg (x : JRat) : 0 ≤ (jabs x).num := by
  unfold jabs
  split
  · exact le_refl 0
  · exact abs_nonneg _

/-- Every row `parseCSV` keeps passed the NaN-and-zero filter, so its
amount is finite and (being an absolute value) positive. -/
theorem rowOfLine_amount {di ai : Nat} {d? : Option Nat} {line : List Char}
    {row : StatementRow} (h : rowOfLine di ai d? line = some row) :
    row.amount.IsFin ∧ 0 < row.amount.num := by
  unfold rowOfLine at h
  split at h
  · exact Option.noConfusion h
  · split at h
    · exact Option.noConfusion h
    · rename_i hcond
      obtain rfl := Option.some_inj.mp h
      simp only [Bool.or_eq_true, beq_iff_eq, not_or] at hcond
      obtain ⟨h1, h2⟩ := hcond
      exact ⟨h1, lt_of_le_of_ne (jabs_num_nonneg _) (Ne.symm h2)⟩

theorem parseCSV_amount {t : String} {row : StatementRow} (h : row ∈ parseCSV t) :
    row.amount.IsFin ∧ 0 < row.amount.num := by
  unfold parseCSV at h
  split at h
  · exact absurd h (List.not_mem_nil row)
  · split at h
    · obtain ⟨line, -, hline⟩ := List.mem_filterMap.mp h
      exact rowOfLine_amount hline
    · exact absurd h (List.not_mem_nil row)

/-- `Map.set` preserves an all-entries invariant. -/
theorem updateAssoc_forall {P : StatementRow → Prop} {k : List Char} {v : StatementRow} :
    ∀ {l}, (∀ g ∈ l, ∀ e ∈ g.2, P e) → P v →
      ∀ g ∈ updateAssoc k v l, ∀ e ∈ g.2, P e := by
  intro l
  induction l with
  | nil =>
    intro _ hv g hgl e he
    obtain rfl := List.mem_singleton.mp hgl
    obtain rfl := List.mem_singleton.mp he
    exact hv
  | cons p rest ih =>
    intro hl hv g hg e he
    rcases p with ⟨k', vs⟩
    unfold updateAssoc at hg
    by_cases hk : k' = k
    · rw [if_pos hk] at hg
      rcases List.mem_cons.mp hg with rfl | h2
      · rcases List.mem_append.mp he with h3 | h3
        · exact hl (k', vs) (List.mem_cons_self _ _) e h3
        · obtain rfl := List.mem_singleton.mp h3
          exact hv
      · exact hl g (List.mem_cons_of_mem _ h2) e he
    · rw [if_neg hk] at hg
      rcases List.mem_cons.mp hg with rfl | h2
      · exact hl (k', vs) (List.mem_cons_self _ _) e he
      · exact ih (fun g' hg' => hl g' (List.mem_cons_of_mem _ hg')) hv g h2 e he

/-- Every entry of every group satisfies any property all rows satisfy. -/
theorem statementGroups_forall {P : StatementRow → Prop} :
    ∀ (rows : List StatementRow) (gs : List (List Char × List StatementRow)),
      (∀ g ∈ gs, ∀ e ∈ g.2, P e) → (∀ r ∈ rows, P r) →
      ∀ g ∈ rows.foldl groupStep gs, ∀ e ∈ g.2, P e := by
  intro rows
  induction rows with
  | nil => intro gs hgs _ g hg; exact hgs g hg
  | cons r rs ih =>
    intro gs hgs hrows g hg
    refine ih (groupStep gs r) ?_ (fun x hx => hrows x (List.mem_cons_of_mem _ hx)) g hg
    intro g' hg' e he
    unfold groupStep at hg'
    split at hg'
    · exact hgs g' hg' e he
    · exact updateAssoc_forall hgs (hrows r (List.mem_cons_self _ _)) g' hg' e he

/-- The keys after `Map.set`: unchanged for an existing key, appended for
a new one. -/
theorem updateAssoc_keys (k : List Char) (v : StatementRow) :
    ∀ l : List (List Char × List StatementRow),
      (updateAssoc k v l).map Prod.fst
        = if k ∈ l.map Prod.fst then l.map Prod.fst else l.map Prod.fst ++ [k] := by
  intro l
  induction l with
  | nil => simp [updateAssoc]
  | cons p rest ih =>
    rcases p with ⟨k', vs⟩
    unfold updateAssoc
    by_cases hk : k' = k
    · rw [if_pos hk]
      subst hk
      simp
    · rw [if_neg hk]
      simp only [List.map_cons, ih]
      by_cases hm : k ∈ rest.map Prod.fst
      · rw [if_pos hm, if_pos (List.mem_cons_of_mem _ hm)]
      · rw [if_neg hm, if_neg ?_]
        · simp
        · intro hc
          rcases List.mem_cons.mp hc with h | h
          · exact hk h.symm
          · exact hm h

theorem updateAssoc_nodup {k : List Char} {v : StatementRow}
    {l : List (List Char × List StatementRow)} (h : (l.map Prod.fst).Nodup) :
    ((updateAssoc k v l).map Prod.fst).Nodup := by
  rw [updateAssoc_keys]
  split
  · exact h
  · rename_i hm
    exact List.Nodup.append h (List.nodup_singleton k) (List.disjoint_singleton.mpr hm)

/-- Group keys are pairwise distinct (JS `Map` keys). -/
theorem statementGroups_nodup (rows : List StatementRow) :
    ((statementGroups rows).map Prod.fst).Nodup := by
  have h : ∀ (rs : List StatementRow) (gs : List (List Char × List StatementRow)),
      (gs.map Prod.fst).Nodup → ((rs.foldl groupStep gs).map Prod.fst).Nodup := by
    intro rs
    induction rs with
    | nil => intro gs hg; exact hg
    | cons r rest ih =>
      intro gs hg
      refine ih (groupStep gs r) ?_
      unfold groupStep
      split
      · exact hg
      · exact updateAssoc_nodup hg
  exact h rows [] (by simp)

/-- In a list with distinct keys, the key determines the pair. -/
theorem nodup_key_eq {l : List (List Char × List StatementRow)}
    (h : (l.map Prod.fst).Nodup) {g g'} (hg : g ∈ l) (hg' : g' ∈ l)
    (heq : g.1 = g'.1) : g = g' := by
  induction l with
  | nil => exact absurd hg (List.not_mem_nil g)
  | cons p rest ih =>
    rw [List.map_cons, List.nodup_cons] at h
    rcases List.mem_cons.mp hg with rfl | hg2 <;> rcases List.mem_cons.mp hg' with rfl | hg2'
    · rfl
    · exact absurd (by rw [heq]; exact List.mem_map_of_mem _ hg2') h.1
    · exact absurd (by rw [← heq]; exact List.mem_map_of_mem _ hg2) h.1
    · exact ih h.2 hg2 hg2'

/-- Inversion of the per-group report. -/
theorem recurringOfGroup_eq_some {dateVal : List Char → ℚ} {key : List Char}
    {entries : List StatementRow} {r : RecurringCharge} :
    recurringOfGroup dateVal key entries = some r
      ↔ 2 ≤ entries.length ∧ r = ⟨key, groupSorted dateVal entries,
          jround2 (groupAvg dateVal entries), groupLatest dateVal entries,
          (groupMom dateVal entries).map jround1,
          match groupMom dateVal entries with
          | some m => jltB (jint 10) m
          | none => false⟩ := by
  unfold recurringOfGroup
  by_cases hl : entries.length < 2
  · rw [if_pos hl]
    constructor
    · exact fun h => Option.noConfusion h
    · rintro ⟨h2, -⟩
      omega
  · rw [if_neg hl]
    constructor
    · intro h
      exact ⟨by omega, (Option.some_inj.mp h).symm⟩
    · rintro ⟨-, rfl⟩
      rfl

/-- Membership in the analysis output in terms of the groups. -/
theorem mem_detectRecurring {dateVal : List Char → ℚ} {rows : List StatementRow}
    {r : RecurringCharge} :
    r ∈ detectRecurring dateVal rows
      ↔ ∃ g ∈ statementGroups rows, recurringOfGroup dateVal g.1 g.2 = some r := by
  unfold detectRecurring
  rw [List.mem_mergeSort, List.mem_filterMap]

/-- `jleTot` is the rational order on the denoted values. -/
theorem jleTot_iff (a b : JRat) : jleTot a b = true ↔ a.toRat ≤ b.toRat := by
  have key : ∀ x : JRat,
      ((jcmpVal x).1 : ℚ) / ((jcmpVal x).2 : ℚ) = x.toRat ∧ 0 < ((jcmpVal x).2 : ℚ) := by
    intro x
    unfold jcmpVal
    split
    · rename_i hx
      constructor
      · simp [toRat_nonfin hx]
      · norm_num
    · rename_i hx
      exact ⟨rfl, den_pos_of_isFin hx⟩
  obtain ⟨ha1, ha2⟩ := key a
  obtain ⟨hb1, hb2⟩ := key b
  unfold jleTot
  rw [decide_eq_true_eq, ← ha1, ← hb1, div_le_div_iff₀ ha2 hb2]
  constructor <;> intro h <;> exact_mod_cast h

theorem recCmpLe_trans (a b c : RecurringCharge) (h1 : recCmpLe a b = true)
    (h2 : recCmpLe b c = true) : recCmpLe a c = true := by
  unfold recCmpLe at *
  cases hab : a.flagged <;> cases hbb : b.flagged <;> cases hcb : c.flagged <;>
    simp_all [jleTot_iff] <;> linarith

theorem recCmpLe_total (a b : RecurringCharge) : (recCmpLe a b || recCmpLe b a) = true := by
  unfold recCmpLe
  cases hab : a.flagged <;> cases hbb : b.flagged <;>
    simp_all [jleTot_iff, le_total]

/-- `getD` at an index below the length is a member. -/
theorem getD_mem {α : Type} {l : List α} {i : ℕ} {d : α} (h : i < l.length) :
    l.getD i d ∈ l := by
  rw [List.getD_eq_getElem?_getD, List.getElem?_eq_getElem h]
  exact List.getElem_mem h

/-- `getD` with default `0` on mapped rationals is `toRat` of the `getD`
with default NaN. -/
theorem getD_toRat (l : List JRat) (i : Nat) :
    (l.map JRat.toRat).getD i 0 = (l.getD i jnan).toRat := by
  rw [List.getD_eq_getElem?_getD, List.getD_eq_getElem?_getD, List.getElem?_map]
  rcases l[i]? with _ | a
  · simp
  · simp

theorem isFin_jmax {a b : JRat} (ha : a.IsFin) (hb : b.IsFin) : (jmax a b).IsFin := by
  unfold jmax
  rw [if_neg ?_]
  · split
    · exact hb
    · exact ha
  · simp only [Bool.or_eq_true, decide_eq_true_eq, not_or]
    exact ⟨ha, hb⟩

/-- The shape facts of every recurring report built from rows whose
amounts are all finite and positive: at least two chronologically sorted
occurrences, the latest amount is the last one, latest and average are
finite, and the flag is exactly "latest exceeds previous by more than
10%". -/
theorem detectRecurring_shape {dateVal : List Char → ℚ} {rows : List StatementRow}
    {r : RecurringCharge}
    (hrows : ∀ e ∈ rows, e.amount.IsFin ∧ 0 < e.amount.num)
    (hr : r ∈ detectRecurring dateVal rows) :
    2 ≤ r.occurrences.length
    ∧ r.occurrences.Pairwise (fun a b => dateVal a.date ≤ dateVal b.date)
    ∧ r.latestAmount.toRat
        = (r.occurrences.map (fun o => o.amount.toRat)).getD (r.occurrences.length - 1) 0
    ∧ r.latestAmount.IsFin ∧ r.avgAmount.IsFin
    ∧ (r.flagged = true ↔
        (11 / 10) * ((r.occurrences.map (fun o => o.amount.toRat)).getD
            (r.occurrences.length - 2) 0)
          < (r.occurrences.map (fun o => o.amount.toRat)).getD
            (r.occurrences.length - 1) 0) := by
  obtain ⟨g, hg, hsome⟩ := mem_detectRecurring.mp hr
  obtain ⟨hlen, rfl⟩ := recurringOfGroup_eq_some.mp hsome
  have hElen : (groupSorted dateVal g.2).length = g.2.length := by
    unfold groupSorted
    exact List.length_mergeSort g.2
  have hAlen : (groupAmounts dateVal g.2).length = (groupSorted dateVal g.2).length :=
    List.length_map _ _
  have hmemA : ∀ a ∈ groupAmounts dateVal g.2, a.IsFin ∧ 0 < a.num := by
    intro a ha
    obtain ⟨e, he, rfl⟩ := List.mem_map.mp ha
    have he2 : e ∈ g.2 := List.mem_mergeSort.mp he
    exact statementGroups_forall rows []
      (fun g' hg' => absurd hg' (List.not_mem_nil g')) hrows g hg e he2
  have hN2 : 2 ≤ (groupAmounts dateVal g.2).length := by
    rw [hAlen, hElen]
    exact hlen
  have hprevmem : groupPrevious dateVal g.2 ∈ groupAmounts dateVal g.2 :=
    getD_mem (by omega)
  have hlatmem : groupLatest dateVal g.2 ∈ groupAmounts dateVal g.2 :=
    getD_mem (by omega)
  obtain ⟨hpfin, hppos⟩ := hmemA _ hprevmem
  obtain ⟨hlfin, -⟩ := hmemA _ hlatmem
  have hpq : 0 < (groupPrevious dateVal g.2).toRat := (toRat_pos_iff hpfin).mpr hppos
  have hjlt : jltB (jint 0) (groupPrevious dateVal g.2) = true := by
    rw [jltB_iff (isFin_jint 0) hpfin, toRat_jint]
    exact_mod_cast hpq
  have hmom : groupMom dateVal g.2
      = some (jmul (jdiv (jsub (groupLatest dateVal g.2) (groupPrevious dateVal g.2))
          (groupPrevious dateVal g.2)) (jint 100)) := by
    unfold groupMom
    rw [if_pos hjlt]
  have hMfin : (jmul (jdiv (jsub (groupLatest dateVal g.2) (groupPrevious dateVal g.2))
      (groupPrevious dateVal g.2)) (jint 100)).IsFin :=
    isFin_jmul (isFin_jdiv (isFin_jsub hlfin hpfin) hpfin hppos.ne') (isFin_jint 100)
  have hMval : (jmul (jdiv (jsub (groupLatest dateVal g.2) (groupPrevious dateVal g.2))
      (groupPrevious dateVal g.2)) (jint 100)).toRat
      = ((groupLatest dateVal g.2).toRat - (groupPrevious dateVal g.2).toRat)
          / (groupPrevious dateVal g.2).toRat * 100 := by
    rw [toRat_jmul, toRat_jdiv _ hpfin hppos, toRat_jsub hlfin hpfin, toRat_jint]
    norm_num
  have hbridge : ∀ i, ((groupSorted dateVal g.2).map (fun o => o.amount.toRat)).getD i 0
      = ((groupAmounts dateVal g.2).getD i jnan).toRat := by
    intro i
    have hmm : (groupSorted dateVal g.2).map (fun o => o.amount.toRat)
        = (groupAmounts dateVal g.2).map JRat.toRat := by
      unfold groupAmounts
      rw [List.map_map]
      rfl
    rw [hmm, getD_toRat]
  refine ⟨?_, ?_, ?_, hlfin, ?_, ?_⟩
  · show 2 ≤ (groupSorted dateVal g.2).length
    rw [hElen]
    exact hlen
  · show (groupSorted dateVal g.2).Pairwise (fun a b => dateVal a.date ≤ dateVal b.date)
    have hsorted := @List.sorted_mergeSort _ (dateCmpLe dateVal)
      (by
        intro a b c h1 h2
        simp only [dateCmpLe, decide_eq_true_eq] at *
        exact le_trans h1 h2)
      (by
        intro a b
        simp only [dateCmpLe, Bool.or_eq_true, decide_eq_true_eq]
        exact le_total _ _)
      g.2
    exact hsorted.imp (fun {a b} h => of_decide_eq_true h)
  · show (groupLatest dateVal g.2).toRat = _
    rw [hbridge, ← hAlen]
    rfl
  · show (jround2 (groupAvg dateVal g.2)).IsFin
    apply isFin_jround2
    unfold groupAvg
    apply isFin_jdiv (jsum_fin_toRat (fun x hx => (hmemA x hx).1)).1 (isFin_jint _)
    exact Int.natCast_ne_zero.mpr (by omega)
  · show (match groupMom dateVal g.2 with
        | some m => jltB (jint 10) m
        | none => false) = true ↔ _
    rw [hmom]
    show jltB (jint 10) _ = true ↔ _
    rw [jltB_iff (isFin_jint 10) hMfin, toRat_jint, hMval]
    simp only [hbridge, ← hAlen]
    show ((10 : ℤ) : ℚ) < _ ↔ (11 / 10) * (groupPrevious dateVal g.2).toRat
      < (groupLatest dateVal g.2).toRat
    push_cast
    rw [div_mul_eq_mul_div, lt_div_iff₀ hpq]
    constructor <;> intro h <;> linarith

/-- `recCmpLe` said yes: flagged-first, then latest descending. -/
theorem recCmpLe_imp {a b : RecurringCharge} (h : recCmpLe a b = true) :
    (a.flagged = true ∧ b.flagged = false)
    ∨ (a.flagged = b.flagged ∧ b.latestAmount.toRat ≤ a.latestAmount.toRat) := by
  unfold recCmpLe at h
  cases hab : a.flagged <;> cases hbb : b.flagged <;> rw [hab, hbb] at h <;> simp at h
  · exact Or.inr ⟨rfl, (jleTot_iff _ _).mp h⟩
  · exact Or.inl ⟨rfl, rfl⟩
  · exact Or.inr ⟨rfl, (jleTot_iff _ _).mp h⟩

/-- C9.  (1) A normalized-merchant group is reported as recurring iff it
has at least 2 occurrences; (2) every report's occurrences are its
chronologically sorted entries (at least 2 of them), its latest amount is
the last of them, and it is flagged iff that latest amount exceeds the
previous one by more than 10%; (3) `potentialOvercharges` is the rounded
sum over flagged reports of `max(0, latestAmount - avgAmount)`; (4) the
recurring list is sorted flagged-first, then by latest amount descending. -/
theorem C9_analyzeStatement (dateVal : List Char → ℚ) (t : String) :
    (∀ g ∈ statementGroups (parseCSV t),
      ((∃ r ∈ (analyzeStatement dateVal t).recurring, r.normalizedName = g.1)
        ↔ 2 ≤ g.2.length))
    ∧ (∀ r ∈ (analyzeStatement dateVal t).recurring,
        2 ≤ r.occurrences.length
        ∧ r.occurrences.Pairwise (fun a b => dateVal a.date ≤ dateVal b.date)
        ∧ r.latestAmount.toRat = (r.occurrences.map (fun o => o.amount.toRat)).getD
            (r.occurrences.length - 1) 0
        ∧ (r.flagged = true ↔
            (11 / 10) * ((r.occurrences.map (fun o => o.amount.toRat)).getD
                (r.occurrences.length - 2) 0)
              < (r.occurrences.map (fun o => o.amount.toRat)).getD
                (r.occurrences.length - 1) 0))
    ∧ (analyzeStatement dateVal t).potentialOvercharges.toRat
        = round2q ((((analyzeStatement dateVal t).recurring.filter (·.flagged)).map
            (fun r => max 0 (r.latestAmount.toRat - r.avgAmount.toRat))).sum)
    ∧ (analyzeStatement dateVal t).recurring.Pairwise (fun a b =>
        (a.flagged = true ∧ b.flagged = false)
        ∨ (a.flagged = b.flagged ∧ b.latestAmount.toRat ≤ a.latestAmount.toRat)) := by
  have hrows : ∀ e ∈ parseCSV t, e.amount.IsFin ∧ 0 < e.amount.num :=
    fun e he => parseCSV_amount he
  have hrec : (analyzeStatement dateVal t).recurring
      = detectRecurring dateVal (parseCSV t) := rfl
  refine ⟨?_, ?_, ?_, ?_⟩
  · intro g hg
    constructor
    · rintro ⟨r, hr, hname⟩
      rw [hrec] at hr
      obtain ⟨g', hg', hsome⟩ := mem_detectRecurring.mp hr
      obtain ⟨hlen, rfl⟩ := recurringOfGroup_eq_some.mp hsome
      have hkey : g'.1 = g.1 := hname
      have heq := nodup_key_eq (statementGroups_nodup (parseCSV t)) hg' hg hkey
      rw [← heq]
      exact hlen
    · intro h2
      refine ⟨⟨g.1, groupSorted dateVal g.2, jround2 (groupAvg dateVal g.2),
        groupLatest dateVal g.2, (groupMom dateVal g.2).map jround1,
        match groupMom dateVal g.2 with
        | some m => jltB (jint 10) m
        | none => false⟩, ?_, rfl⟩
      rw [hrec]
      exact mem_detectRecurring.mpr ⟨g, hg, recurringOfGroup_eq_some.mpr ⟨h2, rfl⟩⟩
  · intro r hr
    rw [hrec] at hr
    obtain ⟨h1, h2, h3, -, -, h6⟩ := detectRecurring_shape hrows hr
    exact ⟨h1, h2, h3, h6⟩
  · rw [hrec]
    show (jround2 (((detectRecurring dateVal (parseCSV t)).filter (·.flagged)).foldl
        (fun s r => jadd s (jmax (jint 0) (jsub r.latestAmount r.avgAmount)))
        (jint 0))).toRat = _
    rw [toRat_jround2]
    have hfold : ((detectRecurring dateVal (parseCSV t)).filter (·.flagged)).foldl
        (fun s r => jadd s (jmax (jint 0) (jsub r.latestAmount r.avgAmount))) (jint 0)
        = jsum (((detectRecurring dateVal (parseCSV t)).filter (·.flagged)).map
            (fun r => jmax (jint 0) (jsub r.latestAmount r.avgAmount))) := by
      rw [jsum, List.foldl_map]
    rw [hfold]
    have hfins : ∀ x ∈ ((detectRecurring dateVal (parseCSV t)).filter (·.flagged)).map
        (fun r => jmax (jint 0) (jsub r.latestAmount r.avgAmount)), x.IsFin := by
      intro x hx
      obtain ⟨r, hrm, rfl⟩ := List.mem_map.mp hx
      obtain ⟨-, -, -, hl, ha, -⟩ :=
        detectRecurring_shape hrows (List.mem_of_mem_filter hrm)
      exact isFin_jmax (isFin_jint 0) (isFin_jsub hl ha)
    rw [(jsum_fin_toRat hfins).2, List.map_map]
    congr 1
    refine congrArg List.sum (List.map_congr_left ?_)
    intro r hrm
    obtain ⟨-, -, -, hl, ha, -⟩ :=
      detectRecurring_shape hrows (List.mem_of_mem_filter hrm)
    show (jmax (jint 0) (jsub r.latestAmount r.avgAmount)).toRat = _
    rw [toRat_jmax (isFin_jint 0) (isFin_jsub hl ha), toRat_jsub hl ha, toRat_jint]
    norm_num
  · rw [hrec]
    unfold detectRecurring
    exact (List.sorted_mergeSort recCmpLe_trans recCmpLe_total _).imp
      (fun {a b} h => recCmpLe_imp h)

end CG









